import Mathlib

/-!
Verification of the `colors` color-space conversion library.

The source (`colors/spaces.py`, `colors/core.py`, `colors/utils.py`) is shallowly
embedded over the real numbers: every color value is a triple of reals, Python's
float arithmetic is modelled by exact real arithmetic, Python's `**` by `Real.rpow`
(or `Monoid.npow` for integer literal exponents), `math.atan2` / `math.degrees` /
`math.radians` by explicit definitions, and Python's float `%` by `pymod` below.
A Python division whose denominator can be zero raises `ZeroDivisionError`; such
conversions are embedded as `Except`-valued functions whose error value
`Err.degenerateInput` models that exception (the spec's `DegenerateInput`), with
the zero test placed exactly where the source would first divide.
-/

noncomputable section

namespace Colors

/-- Error taxonomy of the spec.  `degenerateInput` models a `ZeroDivisionError`
raised by a division in `spaces.py`; `unsupportedOperation` models the
`NotImplementedError` raised by the `Color.space` setter in `core.py`;
`unknownSpace` models the `KeyError` from the `color_spaces` table lookup. -/
inductive Err where
  | degenerateInput
  | unsupportedOperation
  | unknownSpace
deriving DecidableEq

/-- A color value's three float coordinates (`ColorSpace.values`). -/
abbrev Triple : Type := ℝ × ℝ × ℝ

/-- Python's float modulo `a % b`: the remainder has the sign of the divisor,
`a % b = a - b * floor (a / b)`. -/
def pymod (a b : ℝ) : ℝ := a - b * ⌊a / b⌋

/-- Python's `math.atan2 y x`: the angle of the point `(x, y)` in `(-π, π]`,
with `atan2 0 0 = 0`. -/
def atan2 (y x : ℝ) : ℝ :=
  if 0 < x then Real.arctan (y / x)
  else if x < 0 then
    (if 0 ≤ y then Real.arctan (y / x) + Real.pi else Real.arctan (y / x) - Real.pi)
  else if 0 < y then Real.pi / 2
  else if y < 0 then -(Real.pi / 2)
  else 0

/-- Python's `math.degrees`. -/
def degrees (r : ℝ) : ℝ := r * 180 / Real.pi

/-- Python's `math.radians`. -/
def radians (d : ℝ) : ℝ := d * Real.pi / 180

/-- `D65 = XYZ((0.95047, 1.0, 1.08883))`, the module-level white point. -/
def D65 : Triple := (0.95047, 1.0, 1.08883)

namespace CIELab

/-- `CIELab.f`: the piecewise cube-root / linear lightness function. -/
def f (t : ℝ) : ℝ :=
  if t > 216 / 24389 then t ^ ((1 : ℝ) / 3) else 841 / 108 * t + 4 / 29

/-- `CIELab.f_inv`: the stated inverse of `CIELab.f`. -/
def f_inv (t : ℝ) : ℝ :=
  if t > 6 / 29 then t ^ (3 : ℕ) else 108 / 841 * (t - 4 / 29)

end CIELab

namespace CIELuv

/-- `CIELuv.u_prime`: `4X / (X + 15Y + 3Z)` (total embedding; callers guard the
denominator). -/
def u_prime (v : Triple) : ℝ := 4 * v.1 / (v.1 + 15 * v.2.1 + 3 * v.2.2)

/-- `CIELuv.v_prime`: `9Y / (X + 15Y + 3Z)`. -/
def v_prime (v : Triple) : ℝ := 9 * v.2.1 / (v.1 + 15 * v.2.1 + 3 * v.2.2)

end CIELuv

namespace sRGB

/-- The per-channel body of `sRGB.gamma_expand`. -/
def expand (c : ℝ) : ℝ :=
  if c ≤ 0.04045 then c / 12.92 else ((c + 0.055) / 1.055) ^ ((2.4 : ℝ))

/-- The per-channel body of `sRGB.gamma_compress`. -/
def compress (c : ℝ) : ℝ :=
  if c ≤ 0.0031308 then 12.92 * c else 1.055 * c ^ ((1 : ℝ) / 2.4) - 0.055

/-- The new coordinates an `sRGB` value holds after `gamma_expand` (the source
assigns them to `self.values` in place). -/
def gamma_expand (v : Triple) : Triple := (expand v.1, expand v.2.1, expand v.2.2)

/-- The new coordinates an `sRGB` value holds after `gamma_compress`. -/
def gamma_compress (v : Triple) : Triple :=
  (compress v.1, compress v.2.1, compress v.2.2)

end sRGB

namespace XYZ

/-- `XYZ.from_xyY`: `((x·Y/y, Y, (1-x-y)·Y/y))`; `y = 0` raises
`ZeroDivisionError`. -/
def from_xyY (v : Triple) : Except Err Triple :=
  if v.2.1 = 0 then .error .degenerateInput
  else .ok (v.1 * v.2.2 / v.2.1, v.2.2, (1 - v.1 - v.2.1) * v.2.2 / v.2.1)

/-- `XYZ.from_CIELab`: reconstruct `X, Y, Z` from `L, a, b` through `f_inv`. -/
def from_CIELab (v : Triple) : Triple :=
  (D65.1 * CIELab.f_inv ((v.1 + 16) / 116 + v.2.1 / 500),
   D65.2.1 * CIELab.f_inv ((v.1 + 16) / 116),
   D65.2.2 * CIELab.f_inv ((v.1 + 16) / 116 - v.2.2 / 200))

/-- `XYZ.from_CIELuv`: solve the 2×2 system for `X, Z` given `Y`.  The three
variable-denominator divisions of the source (inside `a`, inside `d`, and the
final `(d - b) / (a - c)`) are guarded in source order. -/
def from_CIELuv (v : Triple) : Except Err Triple :=
  let L := v.1
  let u := v.2.1
  let vv := v.2.2
  let u_0 := CIELuv.u_prime D65
  let v_0 := CIELuv.v_prime D65
  let Y : ℝ := if L > 8 then ((L + 16) / 116) ^ (3 : ℕ) else L * 27 / 24389
  if u + 13 * L * u_0 = 0 then .error .degenerateInput
  else
    let a := 1 / 3 * ((52 * L) / (u + 13 * L * u_0) - 1)
    let b := -5 * Y
    let c := -(1 / 3 : ℝ)
    if vv + 13 * L * v_0 = 0 then .error .degenerateInput
    else
      let d := Y * ((39 * L) / (vv + 13 * L * v_0) - 5)
      if a - c = 0 then .error .degenerateInput
      else .ok ((d - b) / (a - c), Y, (d - b) / (a - c) * a + b)

/-- `XYZ.from_sRGB`: gamma-expand, then the published 3×3 matrix. -/
def from_sRGB (v : Triple) : Triple :=
  let s := sRGB.gamma_expand v
  (0.4124564 * s.1 + 0.3575761 * s.2.1 + 0.1804375 * s.2.2,
   0.2126729 * s.1 + 0.7151522 * s.2.1 + 0.0721750 * s.2.2,
   0.0193339 * s.1 + 0.1191920 * s.2.1 + 0.9503041 * s.2.2)

end XYZ

namespace xyY

/-- `xyY.from_XYZ`: normalize by `s = X + Y + Z`; `s = 0` raises
`ZeroDivisionError`. -/
def from_XYZ (v : Triple) : Except Err Triple :=
  if v.1 + v.2.1 + v.2.2 = 0 then .error .degenerateInput
  else .ok (v.1 / (v.1 + v.2.1 + v.2.2), v.2.1 / (v.1 + v.2.1 + v.2.2), v.2.1)

end xyY

namespace UniformColorSpace

/-- `UniformColorSpace.LCh`: `C = sqrt (c1² + c2²)`, `h = degrees (atan2 c2 c1)`,
with 360 added when negative. -/
def LCh (v : Triple) : Triple :=
  let C := Real.sqrt (v.2.1 ^ (2 : ℕ) + v.2.2 ^ (2 : ℕ))
  let h := degrees (atan2 v.2.2 v.2.1)
  (v.1, C, if h < 0 then h + 360 else h)

/-- `UniformColorSpace.from_LCh`: `c1 = C·cos h`, `c2 = C·sin h` with `h` in
radians. -/
def from_LCh (v : Triple) : Triple :=
  (v.1, v.2.1 * Real.cos (radians v.2.2), v.2.1 * Real.sin (radians v.2.2))

end UniformColorSpace

namespace CIELab

/-- `CIELab.from_XYZ`: apply `f` to `X/Xn, Y/Yn, Z/Zn`, then the `L, a, b`
combinations. -/
def from_XYZ (v : Triple) : Triple :=
  (116 * f (v.2.1 / D65.2.1) - 16,
   500 * (f (v.1 / D65.1) - f (v.2.1 / D65.2.1)),
   200 * (f (v.2.1 / D65.2.1) - f (v.2.2 / D65.2.2)))

end CIELab

namespace CIELuv

/-- `CIELuv.from_XYZ`: piecewise `L` from `Y`, then `u = 13L(u' - u'n)`,
`v = 13L(v' - v'n)`; the `u_prime`/`v_prime` divisions raise on
`X + 15Y + 3Z = 0`. -/
def from_XYZ (v : Triple) : Except Err Triple :=
  if v.1 + 15 * v.2.1 + 3 * v.2.2 = 0 then .error .degenerateInput
  else
    let L : ℝ :=
      if v.2.1 > 216 / 24389 then 116 * (v.2.1 / D65.2.1) ^ ((1 : ℝ) / 3) - 16
      else 24389 / 27 * v.2.1 / D65.2.1
    .ok (L, 13 * L * (u_prime v - u_prime D65), 13 * L * (v_prime v - v_prime D65))

end CIELuv

namespace sRGB

/-- `sRGB.HSV`: the max/min/chroma hue-sector formula with the source's branch
order (`C = 0` first, then `M == R`, then `M == G`, else `M == B`). -/
def HSV (v : Triple) : Triple :=
  let R := v.1
  let G := v.2.1
  let B := v.2.2
  let M := max R (max G B)
  let m := min R (min G B)
  let C := M - m
  let H : ℝ :=
    if C = 0 then 0
    else if M = R then 60 * pymod ((G - B) / C) 6
    else if M = G then 60 * ((B - R) / C + 2)
    else 60 * ((R - G) / C + 4)
  (H, if M = 0 then 0 else C / M, M)

/-- `sRGB.from_XYZ`: the published 3×3 matrix, then gamma-compress the new
value. -/
def from_XYZ (v : Triple) : Triple :=
  gamma_compress
    (3.2404542 * v.1 + (-1.5371385) * v.2.1 + (-0.4985314) * v.2.2,
     (-0.9692660) * v.1 + 1.8760108 * v.2.1 + 0.0415560 * v.2.2,
     0.0556434 * v.1 + (-0.2040259) * v.2.1 + 1.0572252 * v.2.2)

/-- `sRGB.from_HSV`: six half-open 60° sectors; `C = V·S`,
`X = C·(1 - |H/60 mod 2 - 1|)`, `m = V - C`. -/
def from_HSV (v : Triple) : Triple :=
  let S := v.2.1
  let V := v.2.2
  let C := V * S
  let H := v.1 / 60
  let X := C * (1 - |pymod H 2 - 1|)
  let m := V - C
  if H < 1 then (C + m, X + m, 0 + m)
  else if H < 2 then (X + m, C + m, 0 + m)
  else if H < 3 then (0 + m, C + m, X + m)
  else if H < 4 then (0 + m, X + m, C + m)
  else if H < 5 then (X + m, 0 + m, C + m)
  else (C + m, 0 + m, X + m)

end sRGB

/-- The closed set of space tags (the keys of `utils.color_spaces`). -/
inductive Tag where
  | XYZ | xyY | CIELab | CIELuv | LCh | sRGB | HSV
deriving DecidableEq, Fintype

/-- The `Color` wrapper of `core.py`: a space tag plus three coordinates. -/
structure Color where
  space : Tag
  values : Triple

/-- The `Color.space` setter: the source raises `NotImplementedError`
unconditionally, so the call errors and the object is returned unchanged. -/
def setSpace (c : Color) (_t : Tag) : Except Err Unit × Color :=
  (.error .unsupportedOperation, c)

/-- The direct conversion edges of the source: the conversion properties each
space class exposes (`XYZ.xyY`, …, `CIELab.LCh` inherited from
`UniformColorSpace`, `LCh.CIELab`, `sRGB.HSV`, `HSV.sRGB`, …). -/
def next : Tag → List Tag
  | .XYZ => [.xyY, .CIELab, .CIELuv, .sRGB]
  | .xyY => [.XYZ]
  | .CIELab => [.XYZ, .LCh]
  | .CIELuv => [.XYZ, .LCh]
  | .LCh => [.CIELab, .CIELuv]
  | .sRGB => [.XYZ, .HSV]
  | .HSV => [.sRGB]

/-- Bounded reachability in the conversion graph. -/
def reachB : Nat → Tag → Tag → Bool
  | 0, a, b => a = b
  | n + 1, a, b => a = b || (next a).any fun c => reachB n c b

/-- The object state after `sRGB.gamma_expand` on a `Color` holding an sRGB
value: `self.values` is reassigned, the class (the tag) is untouched. -/
def colorGammaExpand (c : Color) : Color :=
  { space := c.space, values := sRGB.gamma_expand c.values }

/-- The object state after `sRGB.gamma_compress` on a `Color`. -/
def colorGammaCompress (c : Color) : Color :=
  { space := c.space, values := sRGB.gamma_compress c.values }

/-- State-passing form of `XYZ.from_sRGB`: the pair of (the argument's values
after the call, the result).  The source calls `srgb.gamma_expand()`, mutating
its argument to linear form before the matrix multiply. -/
def from_sRGB_st (v : Triple) : Triple × Triple := (sRGB.gamma_expand v, XYZ.from_sRGB v)

/-- State-passing form of `sRGB.from_XYZ`: the source builds a new object and
gamma-compresses that new object; the argument is never written. -/
def from_XYZ_st (v : Triple) : Triple × Triple := (v, sRGB.from_XYZ v)

/-- State-passing form of `xyY.from_XYZ` (the source never writes its
argument). -/
def xyY_from_XYZ_st (v : Triple) : Triple × Except Err Triple := (v, xyY.from_XYZ v)

/-- State-passing form of `XYZ.from_xyY`. -/
def XYZ_from_xyY_st (v : Triple) : Triple × Except Err Triple := (v, XYZ.from_xyY v)

/-- State-passing form of `CIELab.from_XYZ`. -/
def CIELab_from_XYZ_st (v : Triple) : Triple × Triple := (v, CIELab.from_XYZ v)

/-- State-passing form of `XYZ.from_CIELab`. -/
def XYZ_from_CIELab_st (v : Triple) : Triple × Triple := (v, XYZ.from_CIELab v)

/-- State-passing form of `CIELuv.from_XYZ`. -/
def CIELuv_from_XYZ_st (v : Triple) : Triple × Except Err Triple := (v, CIELuv.from_XYZ v)

/-- State-passing form of `XYZ.from_CIELuv`. -/
def XYZ_from_CIELuv_st (v : Triple) : Triple × Except Err Triple := (v, XYZ.from_CIELuv v)

/-- State-passing form of `UniformColorSpace.LCh`. -/
def LCh_st (v : Triple) : Triple × Triple := (v, UniformColorSpace.LCh v)

/-- State-passing form of `UniformColorSpace.from_LCh`. -/
def from_LCh_st (v : Triple) : Triple × Triple := (v, UniformColorSpace.from_LCh v)

/-- State-passing form of `sRGB.HSV`. -/
def HSV_st (v : Triple) : Triple × Triple := (v, sRGB.HSV v)

/-- State-passing form of `sRGB.from_HSV`. -/
def from_HSV_st (v : Triple) : Triple × Triple := (v, sRGB.from_HSV v)

/-- Claim C3: for every XYZ value with `s = X + Y + Z ≠ 0` the XYZ → xyY
conversion returns exactly `(X/s, Y/s, Y)`; on `XYZ (0, 0, 0)` it fails with a
degenerate-input error (the division raises) instead of silently returning a
number. -/
theorem claim_C3 :
    (∀ X Y Z : ℝ, X + Y + Z ≠ 0 →
      xyY.from_XYZ (X, Y, Z) = .ok (X / (X + Y + Z), Y / (X + Y + Z), Y)) ∧
    xyY.from_XYZ ((0 : ℝ), 0, 0) = .error .degenerateInput := by
  constructor
  · intro X Y Z h
    simp [xyY.from_XYZ, h]
  · simp [xyY.from_XYZ]

/-- Witness for C3 at the interior point `(1, 2, 3)`. -/
theorem claim_C3_witness :
    ((1 : ℝ) + 2 + 3 ≠ 0) ∧
    xyY.from_XYZ ((1 : ℝ), 2, 3) = .ok (1 / (1 + 2 + 3), 2 / (1 + 2 + 3), 2) :=
  ⟨by norm_num, claim_C3.1 1 2 3 (by norm_num)⟩

/-- Claim C9: assigning to the `space` attribute of a `Color` raises
`NotImplementedError` (`unsupportedOperation`) for every target tag and leaves
the color — tag and coordinates alike — unchanged. -/
theorem claim_C9 :
    ∀ (c : Color) (t : Tag), setSpace c t = (.error .unsupportedOperation, c) :=
  fun _ _ => rfl

/-- Claim C10: for every CIELuv value with `L = 0` the CIELuv → XYZ conversion
fails with a division-by-zero error, never returning a result: with `u = 0` the
first guarded denominator is zero, and with `u ≠ 0` the coefficient `a` is
`-1/3 = c`, so the final division by `a - c` is by zero. -/
theorem claim_C10 :
    ∀ u v : ℝ, XYZ.from_CIELuv (0, u, v) = .error .degenerateInput := by
  intro u v
  simp only [XYZ.from_CIELuv]
  norm_num

/-- Claim C2 counterexample: the public surface has no working conversion
operation; the only tag-changing entry point (the `space` setter) errors and
does not produce a value in the requested target space. -/
theorem claim_C2_counterexample :
    (setSpace ⟨Tag.XYZ, ((1 : ℝ), 2, 3)⟩ Tag.sRGB).1 = .error .unsupportedOperation ∧
    (setSpace ⟨Tag.XYZ, ((1 : ℝ), 2, 3)⟩ Tag.sRGB).2.space ≠ Tag.sRGB := by
  refine ⟨rfl, fun h => ?_⟩
  simp only [setSpace] at h
  exact absurd h (by decide)

/-- Claim C2 (amended): the pairwise conversion edges of §4 are present — every
space in {xyY, CIELab, CIELuv, sRGB} has direct edges to and from the hub XYZ,
LCh ↔ CIELab/CIELuv and sRGB ↔ HSV have direct edges bypassing XYZ, and every
space reaches every other within the edge graph (through XYZ) in at most four
steps — but no generic `convert(v, target)` is provided: assigning the `space`
attribute raises `NotImplementedError` and changes nothing. -/
theorem claim_C2 :
    (∀ a b : Tag, reachB 4 a b = true) ∧
    (Tag.XYZ ∈ next Tag.xyY ∧ Tag.xyY ∈ next Tag.XYZ ∧
     Tag.XYZ ∈ next Tag.CIELab ∧ Tag.CIELab ∈ next Tag.XYZ ∧
     Tag.XYZ ∈ next Tag.CIELuv ∧ Tag.CIELuv ∈ next Tag.XYZ ∧
     Tag.XYZ ∈ next Tag.sRGB ∧ Tag.sRGB ∈ next Tag.XYZ) ∧
    (Tag.LCh ∈ next Tag.CIELab ∧ Tag.LCh ∈ next Tag.CIELuv ∧
     Tag.CIELab ∈ next Tag.LCh ∧ Tag.CIELuv ∈ next Tag.LCh ∧
     Tag.HSV ∈ next Tag.sRGB ∧ Tag.sRGB ∈ next Tag.HSV) ∧
    (∀ (c : Color) (t : Tag), (setSpace c t).1 = .error .unsupportedOperation ∧
      (setSpace c t).2 = c) :=
  ⟨by decide, by decide, by decide, fun _ _ => ⟨rfl, rfl⟩⟩

/-- Claim C7: every conversion leaves its input's coordinates unchanged, except
the sRGB gamma path: `gamma_expand`/`gamma_compress` rewrite the sRGB value's
stored coordinates in place (so `XYZ.from_sRGB` leaves its sRGB argument in
linear form — really changed, as the final conjunct shows at `(0.04, 0.04,
0.04)`), while the value's tag stays what it was throughout. -/
theorem claim_C7 :
    (∀ v : Triple, xyY_from_XYZ_st v = (v, xyY.from_XYZ v)) ∧
    (∀ v : Triple, XYZ_from_xyY_st v = (v, XYZ.from_xyY v)) ∧
    (∀ v : Triple, CIELab_from_XYZ_st v = (v, CIELab.from_XYZ v)) ∧
    (∀ v : Triple, XYZ_from_CIELab_st v = (v, XYZ.from_CIELab v)) ∧
    (∀ v : Triple, CIELuv_from_XYZ_st v = (v, CIELuv.from_XYZ v)) ∧
    (∀ v : Triple, XYZ_from_CIELuv_st v = (v, XYZ.from_CIELuv v)) ∧
    (∀ v : Triple, LCh_st v = (v, UniformColorSpace.LCh v)) ∧
    (∀ v : Triple, from_LCh_st v = (v, UniformColorSpace.from_LCh v)) ∧
    (∀ v : Triple, HSV_st v = (v, sRGB.HSV v)) ∧
    (∀ v : Triple, from_HSV_st v = (v, sRGB.from_HSV v)) ∧
    (∀ v : Triple, from_XYZ_st v = (v, sRGB.from_XYZ v)) ∧
    (∀ v : Triple, from_sRGB_st v = (sRGB.gamma_expand v, XYZ.from_sRGB v)) ∧
    (∀ c : Color, (colorGammaExpand c).space = c.space ∧
      (colorGammaExpand c).values = sRGB.gamma_expand c.values ∧
      (colorGammaCompress c).space = c.space ∧
      (colorGammaCompress c).values = sRGB.gamma_compress c.values) ∧
    sRGB.gamma_expand ((0.04 : ℝ), 0.04, 0.04) ≠ ((0.04 : ℝ), 0.04, 0.04) := by
  refine ⟨fun _ => rfl, fun _ => rfl, fun _ => rfl, fun _ => rfl, fun _ => rfl,
    fun _ => rfl, fun _ => rfl, fun _ => rfl, fun _ => rfl, fun _ => rfl,
    fun _ => rfl, fun _ => rfl, fun _ => ⟨rfl, rfl, rfl, rfl⟩, fun h => ?_⟩
  rw [Prod.ext_iff] at h
  have h1 := h.1
  rw [show sRGB.gamma_expand ((0.04 : ℝ), 0.04, 0.04) =
      (sRGB.expand 0.04, sRGB.expand 0.04, sRGB.expand 0.04) from rfl] at h1
  rw [sRGB.expand, if_pos (by norm_num)] at h1
  norm_num at h1

/-- Claim C8: zero-chroma tie-breaks.  A CIELab/CIELuv value with `c1 = c2 = 0`
gets the deterministic hue 0° (and chroma 0); an sRGB value with `R = G = B`
gets HSV hue 0 and saturation 0; saturation is 0 when the max channel is 0 and
`C / V` otherwise. -/
theorem claim_C8 :
    (∀ L c1 c2 : ℝ, c1 = 0 → c2 = 0 →
      (UniformColorSpace.LCh (L, c1, c2)).2.2 = 0 ∧
      (UniformColorSpace.LCh (L, c1, c2)).2.1 = 0) ∧
    (∀ R G B : ℝ, R = G → G = B →
      (sRGB.HSV (R, G, B)).1 = 0 ∧ (sRGB.HSV (R, G, B)).2.1 = 0) ∧
    (∀ R G B : ℝ, max R (max G B) = 0 → (sRGB.HSV (R, G, B)).2.1 = 0) ∧
    (∀ R G B : ℝ, max R (max G B) ≠ 0 →
      (sRGB.HSV (R, G, B)).2.1 =
        (max R (max G B) - min R (min G B)) / max R (max G B)) := by
  refine ⟨?_, ?_, ?_, ?_⟩
  · intro L c1 c2 h1 h2
    subst h1; subst h2
    constructor <;> simp [UniformColorSpace.LCh, atan2, degrees]
  · intro R G B h1 h2
    subst h1; subst h2
    constructor <;> simp [sRGB.HSV]
  · intro R G B h
    simp [sRGB.HSV, h]
  · intro R G B h
    simp [sRGB.HSV, h]

/-- Witness for C8 at `(50, 0, 0)` in CIELab, gray `(0.3, 0.3, 0.3)` in sRGB,
and max-channel cases `(0, -1, -2)` and `(0.2, 0.5, 0.1)`. -/
theorem claim_C8_witness :
    ((UniformColorSpace.LCh ((50 : ℝ), 0, 0)).2.2 = 0 ∧
     (UniformColorSpace.LCh ((50 : ℝ), 0, 0)).2.1 = 0) ∧
    ((sRGB.HSV ((0.3 : ℝ), 0.3, 0.3)).1 = 0 ∧
     (sRGB.HSV ((0.3 : ℝ), 0.3, 0.3)).2.1 = 0) ∧
    (max (0 : ℝ) (max (-1) (-2)) = 0 ∧ (sRGB.HSV ((0 : ℝ), -1, -2)).2.1 = 0) ∧
    (max (0.2 : ℝ) (max 0.5 0.1) ≠ 0 ∧
     (sRGB.HSV ((0.2 : ℝ), 0.5, 0.1)).2.1 =
       (max (0.2 : ℝ) (max 0.5 0.1) - min (0.2 : ℝ) (min 0.5 0.1)) /
         max (0.2 : ℝ) (max 0.5 0.1)) :=
  ⟨claim_C8.1 50 0 0 rfl rfl, claim_C8.2.1 0.3 0.3 0.3 rfl rfl,
   ⟨by norm_num, claim_C8.2.2.1 0 (-1) (-2) (by norm_num)⟩,
   ⟨by norm_num, claim_C8.2.2.2 0.2 0.5 0.1 (by norm_num)⟩⟩

/-- Cube root then cube is the identity on nonnegative reals. -/
theorem cubeRoot_pow (t : ℝ) (ht : 0 ≤ t) : (t ^ ((1 : ℝ) / 3)) ^ (3 : ℕ) = t := by
  rw [← Real.rpow_natCast (t ^ ((1 : ℝ) / 3)) 3, ← Real.rpow_mul ht]
  norm_num

/-- Cube then cube root is the identity on nonnegative reals. -/
theorem pow_cubeRoot (t : ℝ) (ht : 0 ≤ t) : (t ^ (3 : ℕ)) ^ ((1 : ℝ) / 3) = t := by
  rw [← Real.rpow_natCast t 3, ← Real.rpow_mul ht]
  norm_num

/-- `f_inv` undoes `f` on every real input. -/
theorem f_inv_f (t : ℝ) : CIELab.f_inv (CIELab.f t) = t := by
  unfold CIELab.f CIELab.f_inv
  by_cases h : t > 216 / 24389
  · rw [if_pos h]
    have ht0 : (0 : ℝ) ≤ t := le_of_lt (lt_trans (by norm_num) h)
    have h2 : t ^ ((1 : ℝ) / 3) > 6 / 29 := by
      have h3 : ((216 / 24389 : ℝ)) ^ ((1 : ℝ) / 3) < t ^ ((1 : ℝ) / 3) :=
        Real.rpow_lt_rpow (by norm_num) h (by norm_num)
      have h4 : ((216 / 24389 : ℝ)) = (6 / 29 : ℝ) ^ (3 : ℕ) := by norm_num
      rwa [h4, pow_cubeRoot _ (by norm_num)] at h3
    rw [if_pos h2, cubeRoot_pow t ht0]
  · rw [if_neg h]
    push_neg at h
    rw [if_neg (by push_neg; nlinarith)]
    ring

/-- `f` undoes `f_inv` on every real input. -/
theorem f_f_inv (t : ℝ) : CIELab.f (CIELab.f_inv t) = t := by
  unfold CIELab.f CIELab.f_inv
  by_cases h : t > 6 / 29
  · rw [if_pos h]
    have ht0 : (0 : ℝ) ≤ t := le_of_lt (lt_trans (by norm_num) h)
    have h2 : t ^ (3 : ℕ) > 216 / 24389 := by
      have h3 : (6 / 29 : ℝ) ^ (3 : ℕ) < t ^ (3 : ℕ) :=
        pow_lt_pow_left h (by norm_num) (by norm_num)
      have h4 : ((6 / 29 : ℝ)) ^ (3 : ℕ) = 216 / 24389 := by norm_num
      linarith
    rw [if_pos h2, pow_cubeRoot t ht0]
  · rw [if_neg h]
    push_neg at h
    rw [if_neg (by push_neg; nlinarith)]
    ring

/-- Claim C4: the piecewise lightness function and its stated inverse are
mutual inverses on all of ℝ; the linear branch of `f` lands in the linear
branch of `f_inv`, and the breakpoints match: `f (216/24389) = 6/29` and
`216/24389 = (6/29)³`. -/
theorem claim_C4 :
    (∀ t : ℝ, CIELab.f_inv (CIELab.f t) = t) ∧
    (∀ t : ℝ, t ≤ 216 / 24389 → CIELab.f t ≤ 6 / 29) ∧
    CIELab.f (216 / 24389) = 6 / 29 ∧
    ((216 / 24389 : ℝ) = (6 / 29) ^ (3 : ℕ)) := by
  refine ⟨f_inv_f, ?_, ?_, by norm_num⟩
  · intro t ht
    rw [CIELab.f, if_neg (not_lt.mpr ht)]
    nlinarith
  · rw [CIELab.f, if_neg (by norm_num)]
    norm_num

/-- Witness for C4's hypothesized conjunct at `t = 0.001`. -/
theorem claim_C4_witness :
    ((0.001 : ℝ) ≤ 216 / 24389) ∧ CIELab.f (0.001 : ℝ) ≤ 6 / 29 :=
  ⟨by norm_num, claim_C4.2.1 0.001 (by norm_num)⟩

/-- `atan2` never exceeds π. -/
theorem atan2_le_pi (y x : ℝ) : atan2 y x ≤ Real.pi := by
  have hpi := Real.pi_pos
  unfold atan2
  split_ifs with h1 h2 h3 h4 h5
  · linarith [Real.arctan_lt_pi_div_two (y / x)]
  · have hyx : y / x ≤ 0 := by
      rw [div_nonpos_iff]; left; exact ⟨h3, h2.le⟩
    have harc : Real.arctan (y / x) ≤ 0 := by
      have := Real.arctan_strictMono.le_iff_le.mpr hyx
      rwa [Real.arctan_zero] at this
    linarith
  · linarith [Real.arctan_lt_pi_div_two (y / x)]
  · linarith
  · linarith
  · linarith

/-- `atan2` stays strictly above −π. -/
theorem neg_pi_lt_atan2 (y x : ℝ) : -Real.pi < atan2 y x := by
  have hpi := Real.pi_pos
  unfold atan2
  split_ifs with h1 h2 h3 h4 h5
  · linarith [Real.neg_pi_div_two_lt_arctan (y / x)]
  · linarith [Real.neg_pi_div_two_lt_arctan (y / x)]
  · have hyx : 0 < y / x := by
      rw [div_pos_iff]; right
      exact ⟨lt_of_not_le h3, h2⟩
    have harc : 0 < Real.arctan (y / x) := by
      have := Real.arctan_strictMono hyx
      rwa [Real.arctan_zero] at this
    linarith
  · linarith
  · linarith
  · linarith

/-- The produced LCh hue lies in `[0, 360)`. -/
theorem LCh_hue_mem (v : Triple) :
    0 ≤ (UniformColorSpace.LCh v).2.2 ∧ (UniformColorSpace.LCh v).2.2 < 360 := by
  have hpi := Real.pi_pos
  have h1 := atan2_le_pi v.2.2 v.2.1
  have h2 := neg_pi_lt_atan2 v.2.2 v.2.1
  have hdeg_le : degrees (atan2 v.2.2 v.2.1) ≤ 180 := by
    rw [degrees, div_le_iff hpi]
    nlinarith
  have hdeg_gt : -180 < degrees (atan2 v.2.2 v.2.1) := by
    rw [degrees, lt_div_iff hpi]
    nlinarith
  simp only [UniformColorSpace.LCh]
  split_ifs with h
  · constructor <;> linarith
  · push_neg at h
    constructor <;> linarith

/-- Python-style float modulo is nonnegative for a positive divisor. -/
theorem pymod_nonneg (a : ℝ) {b : ℝ} (hb : 0 < b) : 0 ≤ pymod a b := by
  rw [pymod]
  have h1 : ((⌊a / b⌋ : ℝ)) * b ≤ a := (le_div_iff hb).mp (Int.floor_le (a / b))
  nlinarith

/-- Python-style float modulo stays below a positive divisor. -/
theorem pymod_lt (a : ℝ) {b : ℝ} (hb : 0 < b) : pymod a b < b := by
  rw [pymod]
  have h1 : a < ((⌊a / b⌋ : ℝ) + 1) * b := (div_lt_iff hb).mp (Int.lt_floor_add_one (a / b))
  nlinarith

/-- The produced HSV hue lies in `[0, 360)`. -/
theorem HSV_hue_mem (v : Triple) :
    0 ≤ (sRGB.HSV v).1 ∧ (sRGB.HSV v).1 < 360 := by
  obtain ⟨R, G, B⟩ := v
  have hRM : R ≤ max R (max G B) := le_max_left _ _
  have hGM : G ≤ max R (max G B) := le_trans (le_max_left G B) (le_max_right _ _)
  have hBM : B ≤ max R (max G B) := le_trans (le_max_right G B) (le_max_right _ _)
  have hmR : min R (min G B) ≤ R := min_le_left _ _
  have hmG : min R (min G B) ≤ G := le_trans (min_le_right _ _) (min_le_left G B)
  have hmB : min R (min G B) ≤ B := le_trans (min_le_right _ _) (min_le_right G B)
  have hC0 : 0 ≤ max R (max G B) - min R (min G B) := by
    have := le_trans hmR hRM
    linarith
  simp only [sRGB.HSV]
  split_ifs with h1 h2 h3
  · norm_num
  · have := pymod_nonneg ((G - B) / (max R (max G B) - min R (min G B))) (by norm_num : (0:ℝ) < 6)
    have := pymod_lt ((G - B) / (max R (max G B) - min R (min G B))) (by norm_num : (0:ℝ) < 6)
    constructor <;> linarith
  · have hC : 0 < max R (max G B) - min R (min G B) := lt_of_le_of_ne hC0 (Ne.symm h1)
    have ht1 : (B - R) / (max R (max G B) - min R (min G B)) ≤ 1 := by
      rw [div_le_one hC]; linarith
    have ht2 : -1 ≤ (B - R) / (max R (max G B) - min R (min G B)) := by
      rw [le_div_iff hC]; nlinarith
    constructor <;> linarith
  · have hC : 0 < max R (max G B) - min R (min G B) := lt_of_le_of_ne hC0 (Ne.symm h1)
    have ht1 : (R - G) / (max R (max G B) - min R (min G B)) ≤ 1 := by
      rw [div_le_one hC]; linarith
    have ht2 : -1 ≤ (R - G) / (max R (max G B) - min R (min G B)) := by
      rw [le_div_iff hC]; nlinarith
    constructor <;> linarith

/-- Claim C5: for every input triple, the hue an LCh conversion produces (third
component) and the hue an HSV conversion produces (first component) lie in the
half-open interval `[0, 360)`. -/
theorem claim_C5 :
    ∀ v : Triple,
      (0 ≤ (UniformColorSpace.LCh v).2.2 ∧ (UniformColorSpace.LCh v).2.2 < 360) ∧
      (0 ≤ (sRGB.HSV v).1 ∧ (sRGB.HSV v).1 < 360) :=
  fun v => ⟨LCh_hue_mem v, HSV_hue_mem v⟩

/-- Raising `x ^ (5/12)` to the 12th power gives `x ^ 5`. -/
theorem rpow512_pow12 (x : ℝ) (hx : 0 ≤ x) :
    (x ^ ((5 : ℝ) / 12)) ^ (12 : ℕ) = x ^ (5 : ℕ) := by
  rw [← Real.rpow_natCast (x ^ ((5 : ℝ) / 12)) 12, ← Real.rpow_mul hx,
    ← Real.rpow_natCast x 5]
  norm_num

/-- Raising `x ^ (12/5)` to the 5th power gives `x ^ 12`. -/
theorem rpow125_pow5 (x : ℝ) (hx : 0 ≤ x) :
    (x ^ ((12 : ℝ) / 5)) ^ (5 : ℕ) = x ^ (12 : ℕ) := by
  rw [← Real.rpow_natCast (x ^ ((12 : ℝ) / 5)) 5, ← Real.rpow_mul hx,
    ← Real.rpow_natCast x 12]
  norm_num

/-- Rational certificate for `x ^ (5/12) < K`. -/
theorem rpow512_lt_of (x K : ℝ) (hx : 0 ≤ x) (hK : 0 ≤ K)
    (h : x ^ (5 : ℕ) < K ^ (12 : ℕ)) : x ^ ((5 : ℝ) / 12) < K := by
  apply lt_of_pow_lt_pow_left 12 hK
  rw [rpow512_pow12 x hx]
  exact h

/-- Rational certificate for `K ≤ x ^ (5/12)`. -/
theorem le_rpow512_of (x K : ℝ) (hx : 0 ≤ x) (h : K ^ (12 : ℕ) ≤ x ^ (5 : ℕ)) :
    K ≤ x ^ ((5 : ℝ) / 12) := by
  have h2 : K ^ (12 : ℕ) ≤ (x ^ ((5 : ℝ) / 12)) ^ (12 : ℕ) := by
    rw [rpow512_pow12 x hx]; exact h
  refine le_of_pow_le_pow_left ?_ (Real.rpow_nonneg hx _) h2
  norm_num

/-- Rational certificate for `x ^ (5/12) ≤ K`. -/
theorem rpow512_le_of (x K : ℝ) (hx : 0 ≤ x) (hK : 0 ≤ K)
    (h : x ^ (5 : ℕ) ≤ K ^ (12 : ℕ)) : x ^ ((5 : ℝ) / 12) ≤ K := by
  have h2 : (x ^ ((5 : ℝ) / 12)) ^ (12 : ℕ) ≤ K ^ (12 : ℕ) := by
    rw [rpow512_pow12 x hx]; exact h
  refine le_of_pow_le_pow_left ?_ hK h2
  norm_num

/-- Rational certificate for `a < K ^ (12/5)`. -/
theorem lt_rpow125_of (a K : ℝ) (hK : 0 ≤ K)
    (h : a ^ (5 : ℕ) < K ^ (12 : ℕ)) : a < K ^ ((12 : ℝ) / 5) := by
  apply lt_of_pow_lt_pow_left 5 (Real.rpow_nonneg hK _)
  rw [rpow125_pow5 K hK]
  exact h

/-- Claim C6 counterexample: at the expansion breakpoint `c = 0.04045` the gamma
round trip misses by more than `1e-9`: `expand` takes the linear branch but
`0.04045 / 12.92 > 0.0031308`, so `compress` takes the power branch and the
rounded constants do not cancel (the true error is about `2.96e-8`). -/
theorem claim_C6_counterexample :
    |sRGB.compress (sRGB.expand 0.04045) - 0.04045| > 0.000000001 := by
  have hexp : sRGB.expand 0.04045 = (0.04045 : ℝ) / 12.92 := by
    rw [sRGB.expand, if_pos (by norm_num)]
  have hbranch : ¬ ((0.04045 : ℝ) / 12.92 ≤ 0.0031308) := by norm_num
  have hval : sRGB.compress (sRGB.expand 0.04045) =
      1.055 * ((0.04045 : ℝ) / 12.92) ^ ((1 : ℝ) / 2.4) - 0.055 := by
    rw [hexp, sRGB.compress, if_neg hbranch]
  have hlt : ((0.04045 : ℝ) / 12.92) ^ ((1 : ℝ) / 2.4) <
      (0.04045 - 0.000000001 + 0.055) / 1.055 := by
    rw [show ((1 : ℝ) / 2.4) = 5 / 12 by norm_num]
    apply rpow512_lt_of _ _ (by norm_num) (by norm_num)
    norm_num
  have h : sRGB.compress (sRGB.expand 0.04045) < 0.04045 - 0.000000001 := by
    rw [hval]; nlinarith
  rw [abs_of_neg (by linarith)]
  linarith

/-- Claim C6 (amended): the sRGB gamma round trip `compress (expand c)` is
exactly `c` for every `c ≤ 0.040449936` (both branches linear) and for every
`c > 0.04045` (both branches power), and on the remaining sliver
`(0.040449936, 0.04045]` — where the rounded breakpoint constants make `expand`
linear but `compress` power — it is within `1e-7` of `c` (but not within
`1e-9`; see the counterexample at the breakpoint `c = 0.04045`). -/
theorem claim_C6 :
    (∀ c : ℝ, c ≤ 0.040449936 → sRGB.compress (sRGB.expand c) = c) ∧
    (∀ c : ℝ, 0.04045 < c → sRGB.compress (sRGB.expand c) = c) ∧
    (∀ c : ℝ, 0.040449936 < c → c ≤ 0.04045 →
      |sRGB.compress (sRGB.expand c) - c| ≤ 0.0000001) := by
  refine ⟨?_, ?_, ?_⟩
  · intro c hc
    rw [sRGB.expand, if_pos (by linarith), sRGB.compress,
      if_pos (by rw [div_le_iff (by norm_num : (0:ℝ) < 12.92)]; linarith)]
    field_simp
  · intro c hc
    rw [sRGB.expand, if_neg (by linarith)]
    have hbase : (0 : ℝ) ≤ (c + 0.055) / 1.055 := div_nonneg (by linarith) (by norm_num)
    have hK : ((1909 : ℝ) / 21100) < (c + 0.055) / 1.055 := by
      rw [div_lt_div_iff (by norm_num) (by norm_num)]
      linarith
    have hy : (0.0031308 : ℝ) < ((c + 0.055) / 1.055) ^ ((2.4 : ℝ)) := by
      have h1 : ((1909 : ℝ) / 21100) ^ ((2.4 : ℝ)) <
          ((c + 0.055) / 1.055) ^ ((2.4 : ℝ)) :=
        Real.rpow_lt_rpow (by norm_num) hK (by norm_num)
      have h2 : (0.0031308 : ℝ) < ((1909 : ℝ) / 21100) ^ ((2.4 : ℝ)) := by
        rw [show (2.4 : ℝ) = 12 / 5 by norm_num]
        apply lt_rpow125_of _ _ (by norm_num)
        norm_num
      linarith
    rw [sRGB.compress, if_neg (by linarith)]
    rw [← Real.rpow_mul hbase]
    norm_num
    field_simp
    ring
  · intro c hc1 hc2
    rw [sRGB.expand, if_pos (by linarith)]
    have hx0 : (0 : ℝ) ≤ c / 12.92 := div_nonneg (by linarith) (by norm_num)
    have hxl : (0.0031308 : ℝ) < c / 12.92 := by
      rw [lt_div_iff (by norm_num)]
      linarith
    have hxr : c / 12.92 ≤ (0.04045 : ℝ) / 12.92 := by gcongr
    rw [sRGB.compress, if_neg (by linarith)]
    rw [show ((1 : ℝ) / 2.4) = 5 / 12 by norm_num]
    have hs_lo : ((9047384 : ℝ) / 100000000) ≤ (c / 12.92) ^ ((5 : ℝ) / 12) := by
      have h1 : ((0.0031308 : ℝ)) ^ ((5 : ℝ) / 12) ≤ (c / 12.92) ^ ((5 : ℝ) / 12) :=
        Real.rpow_le_rpow (by norm_num) hxl.le (by norm_num)
      have h2 : ((9047384 : ℝ) / 100000000) ≤ ((0.0031308 : ℝ)) ^ ((5 : ℝ) / 12) := by
        apply le_rpow512_of _ _ (by norm_num)
        norm_num
      linarith
    have hs_hi : (c / 12.92) ^ ((5 : ℝ) / 12) ≤ ((9047391 : ℝ) / 100000000) := by
      have h1 : (c / 12.92) ^ ((5 : ℝ) / 12) ≤ ((0.04045 : ℝ) / 12.92) ^ ((5 : ℝ) / 12) :=
        Real.rpow_le_rpow hx0 hxr (by norm_num)
      have h2 : ((0.04045 : ℝ) / 12.92) ^ ((5 : ℝ) / 12) ≤ ((9047391 : ℝ) / 100000000) := by
        apply rpow512_le_of _ _ (by norm_num) (by norm_num)
        norm_num
      linarith
    rw [abs_le]
    constructor <;> nlinarith

/-- `radians` undoes `degrees`. -/
theorem radians_degrees (t : ℝ) : radians (degrees t) = t := by
  rw [radians, degrees]
  field_simp

/-- `degrees` undoes `radians`. -/
theorem degrees_radians (h : ℝ) : degrees (radians h) = h := by
  rw [radians, degrees]
  field_simp

/-- Adding 360 degrees adds `2π` radians. -/
theorem radians_degrees_add360 (t : ℝ) : radians (degrees t + 360) = t + 2 * Real.pi := by
  rw [radians, degrees]
  field_simp
  ring

/-- The chroma/hue pair recovers the Cartesian coordinates:
`sqrt (x² + y²) * cos (atan2 y x) = x` and likewise with `sin` for `y`. -/
theorem mul_cos_sin_atan2 (x y : ℝ) :
    Real.sqrt (x ^ (2 : ℕ) + y ^ (2 : ℕ)) * Real.cos (atan2 y x) = x ∧
    Real.sqrt (x ^ (2 : ℕ) + y ^ (2 : ℕ)) * Real.sin (atan2 y x) = y := by
  rcases lt_trichotomy x 0 with hx | hx | hx
  · -- x < 0 : the two π-shifted branches
    have hx' : x ≠ 0 := ne_of_lt hx
    have hS0 : (0 : ℝ) < x ^ (2 : ℕ) + y ^ (2 : ℕ) := by positivity
    have hS : (0 : ℝ) < Real.sqrt (x ^ (2 : ℕ) + y ^ (2 : ℕ)) := Real.sqrt_pos.mpr hS0
    have hsq : Real.sqrt (1 + (y / x) ^ (2 : ℕ)) =
        Real.sqrt (x ^ (2 : ℕ) + y ^ (2 : ℕ)) / (-x) := by
      have h1 : 1 + (y / x) ^ (2 : ℕ) = (x ^ (2 : ℕ) + y ^ (2 : ℕ)) / x ^ (2 : ℕ) := by
        field_simp
      rw [h1, Real.sqrt_div (by positivity), Real.sqrt_sq_eq_abs, abs_of_neg hx]
    by_cases hy : 0 ≤ y
    · have hbr : atan2 y x = Real.arctan (y / x) + Real.pi := by
        rw [atan2, if_neg (by linarith), if_pos hx, if_pos hy]
      rw [hbr, Real.cos_add_pi, Real.sin_add_pi, Real.cos_arctan, Real.sin_arctan, hsq]
      constructor <;> (field_simp; try ring)
    · have hbr : atan2 y x = Real.arctan (y / x) - Real.pi := by
        rw [atan2, if_neg (by linarith), if_pos hx, if_neg hy]
      rw [hbr, Real.cos_sub_pi, Real.sin_sub_pi, Real.cos_arctan, Real.sin_arctan, hsq]
      constructor <;> (field_simp; try ring)
  · -- x = 0 : the axis branches
    subst hx
    rcases lt_trichotomy y 0 with hy | hy | hy
    · have hbr : atan2 y 0 = -(Real.pi / 2) := by
        rw [atan2, if_neg (by norm_num), if_neg (by norm_num), if_neg (by linarith),
          if_pos hy]
      rw [hbr, Real.cos_neg, Real.sin_neg, Real.cos_pi_div_two, Real.sin_pi_div_two]
      constructor
      · ring
      · rw [show (0 : ℝ) ^ (2 : ℕ) + y ^ (2 : ℕ) = y ^ (2 : ℕ) by ring,
          Real.sqrt_sq_eq_abs, abs_of_neg hy]
        ring
    · subst hy
      have hbr : atan2 (0 : ℝ) 0 = 0 := by
        rw [atan2, if_neg (by norm_num), if_neg (by norm_num), if_neg (by norm_num),
          if_neg (by norm_num)]
      rw [hbr, Real.cos_zero, Real.sin_zero]
      norm_num
    · have hbr : atan2 y 0 = Real.pi / 2 := by
        rw [atan2, if_neg (by norm_num), if_neg (by norm_num), if_pos hy]
      rw [hbr, Real.cos_pi_div_two, Real.sin_pi_div_two]
      constructor
      · ring
      · rw [show (0 : ℝ) ^ (2 : ℕ) + y ^ (2 : ℕ) = y ^ (2 : ℕ) by ring,
          Real.sqrt_sq_eq_abs, abs_of_pos hy]
        ring
  · -- 0 < x : the arctan branch
    have hx' : x ≠ 0 := ne_of_gt hx
    have hS0 : (0 : ℝ) < x ^ (2 : ℕ) + y ^ (2 : ℕ) := by positivity
    have hS : (0 : ℝ) < Real.sqrt (x ^ (2 : ℕ) + y ^ (2 : ℕ)) := Real.sqrt_pos.mpr hS0
    have hsq : Real.sqrt (1 + (y / x) ^ (2 : ℕ)) =
        Real.sqrt (x ^ (2 : ℕ) + y ^ (2 : ℕ)) / x := by
      have h1 : 1 + (y / x) ^ (2 : ℕ) = (x ^ (2 : ℕ) + y ^ (2 : ℕ)) / x ^ (2 : ℕ) := by
        field_simp
      rw [h1, Real.sqrt_div (by positivity), Real.sqrt_sq_eq_abs, abs_of_pos hx]
    have hbr : atan2 y x = Real.arctan (y / x) := by
      rw [atan2, if_pos hx]
    rw [hbr, Real.cos_arctan, Real.sin_arctan, hsq]
    constructor <;> (field_simp; try ring)

/-- A CIELab/CIELuv value survives the trip to LCh and back. -/
theorem UCS_LCh_roundtrip (v : Triple) :
    UniformColorSpace.from_LCh (UniformColorSpace.LCh v) = v := by
  obtain ⟨L, x, y⟩ := v
  have hmain := mul_cos_sin_atan2 x y
  simp only [UniformColorSpace.LCh, UniformColorSpace.from_LCh]
  by_cases h : degrees (atan2 y x) < 0
  · rw [if_pos h, radians_degrees_add360, Real.cos_add_two_pi, Real.sin_add_two_pi]
    exact Prod.ext rfl (Prod.ext hmain.1 hmain.2)
  · rw [if_neg h, radians_degrees]
    exact Prod.ext rfl (Prod.ext hmain.1 hmain.2)

/-- `atan2` recovers the angle of a polar point with positive radius and angle
in `(-π, π]`. -/
theorem atan2_mul_cos_sin (C θ : ℝ) (hC : 0 < C) (h1 : -Real.pi < θ)
    (h2 : θ ≤ Real.pi) : atan2 (C * Real.sin θ) (C * Real.cos θ) = θ := by
  have hpi := Real.pi_pos
  have hCne : C ≠ 0 := ne_of_gt hC
  have htan : (C * Real.sin θ) / (C * Real.cos θ) = Real.tan θ := by
    rw [Real.tan_eq_sin_div_cos, mul_div_mul_left _ _ hCne]
  rcases lt_trichotomy (Real.cos θ) 0 with hcos | hcos | hcos
  · have hxneg : C * Real.cos θ < 0 := mul_neg_of_pos_of_neg hC hcos
    by_cases hy : 0 ≤ C * Real.sin θ
    · have hsin : 0 ≤ Real.sin θ := by
        by_contra hneg
        push_neg at hneg
        nlinarith
      have hθpos : 0 < θ := by
        by_contra hθ
        push_neg at hθ
        rcases eq_or_lt_of_le hθ with hθ' | hθ'
        · rw [hθ', Real.cos_zero] at hcos
          linarith
        · have := Real.sin_neg_of_neg_of_neg_pi_lt hθ' h1
          linarith
      have hθhalf : Real.pi / 2 < θ := by
        by_contra hθ
        push_neg at hθ
        have : 0 ≤ Real.cos θ := Real.cos_nonneg_of_mem_Icc ⟨by linarith, hθ⟩
        linarith
      have harct : Real.arctan (Real.tan θ) = θ - Real.pi := by
        rw [← Real.tan_periodic.sub_eq θ]
        exact Real.arctan_tan (by linarith) (by linarith)
      rw [atan2, if_neg (by linarith), if_pos hxneg, if_pos hy, htan, harct]
      ring
    · push_neg at hy
      have hsin : Real.sin θ < 0 := by nlinarith
      have hθneg : θ < 0 := by
        by_contra hθ
        push_neg at hθ
        have : 0 ≤ Real.sin θ := Real.sin_nonneg_of_nonneg_of_le_pi hθ h2
        linarith
      have hθhalf : θ < -(Real.pi / 2) := by
        by_contra hθ
        push_neg at hθ
        have : 0 ≤ Real.cos θ := Real.cos_nonneg_of_mem_Icc ⟨hθ, by linarith⟩
        linarith
      have harct : Real.arctan (Real.tan θ) = θ + Real.pi := by
        rw [← Real.tan_periodic θ]
        exact Real.arctan_tan (by linarith) (by linarith)
      rw [atan2, if_neg (by linarith), if_pos hxneg, if_neg (by linarith), htan, harct]
      ring
  · have hpm : θ = Real.pi / 2 ∨ θ = -(Real.pi / 2) := by
      rcases le_or_lt 0 θ with hθ | hθ
      · left
        exact Real.injOn_cos ⟨hθ, h2⟩ ⟨by linarith, by linarith⟩
          (by rw [hcos, Real.cos_pi_div_two])
      · right
        have h3 : Real.cos (-θ) = 0 := by rw [Real.cos_neg]; exact hcos
        have h4 : -θ = Real.pi / 2 :=
          Real.injOn_cos ⟨by linarith, by linarith⟩ ⟨by linarith, by linarith⟩
            (by rw [h3, Real.cos_pi_div_two])
        linarith
    rcases hpm with rfl | rfl
    · have e1 : C * Real.cos (Real.pi / 2) = 0 := by
        rw [Real.cos_pi_div_two]; ring
      have e2 : C * Real.sin (Real.pi / 2) = C := by
        rw [Real.sin_pi_div_two]; ring
      rw [e1, e2, atan2, if_neg (lt_irrefl 0), if_neg (lt_irrefl 0), if_pos hC]
    · have e1 : C * Real.cos (-(Real.pi / 2)) = 0 := by
        rw [Real.cos_neg, Real.cos_pi_div_two]; ring
      have e2 : C * Real.sin (-(Real.pi / 2)) = -C := by
        rw [Real.sin_neg, Real.sin_pi_div_two]; ring
      rw [e1, e2, atan2, if_neg (lt_irrefl 0), if_neg (lt_irrefl 0),
        if_neg (by linarith), if_pos (by linarith)]
  · have hθ1 : -(Real.pi / 2) < θ := by
      by_contra hθ
      push_neg at hθ
      have h3 : Real.cos (-θ) ≤ 0 :=
        Real.cos_nonpos_of_pi_div_two_le_of_le (by linarith) (by linarith)
      rw [Real.cos_neg] at h3
      linarith
    have hθ2 : θ < Real.pi / 2 := by
      by_contra hθ
      push_neg at hθ
      have h3 : Real.cos θ ≤ 0 :=
        Real.cos_nonpos_of_pi_div_two_le_of_le hθ (by linarith)
      linarith
    have hxpos : 0 < C * Real.cos θ := mul_pos hC hcos
    rw [atan2, if_pos hxpos, htan, Real.arctan_tan hθ1 hθ2]

/-- An LCh value with positive chroma and hue in `[0, 360)` survives the trip
to a uniform color space and back. -/
theorem LCh_UCS_roundtrip (L C h : ℝ) (hC : 0 < C) (hh1 : 0 ≤ h) (hh2 : h < 360) :
    UniformColorSpace.LCh (UniformColorSpace.from_LCh (L, C, h)) = (L, C, h) := by
  have hpi := Real.pi_pos
  simp only [UniformColorSpace.from_LCh, UniformColorSpace.LCh]
  have hchroma : ∀ θ : ℝ,
      Real.sqrt ((C * Real.cos θ) ^ (2 : ℕ) + (C * Real.sin θ) ^ (2 : ℕ)) = C := by
    intro θ
    have hid := Real.sin_sq_add_cos_sq θ
    rw [show (C * Real.cos θ) ^ (2 : ℕ) + (C * Real.sin θ) ^ (2 : ℕ) = C ^ (2 : ℕ) by
      nlinarith, Real.sqrt_sq hC.le]
  rcases le_or_lt h 180 with hcase | hcase
  · have hθ1 : -Real.pi < radians h := by
      have : 0 ≤ radians h := by
        rw [radians]
        exact div_nonneg (mul_nonneg hh1 hpi.le) (by norm_num)
      linarith
    have hθ2 : radians h ≤ Real.pi := by
      rw [radians, div_le_iff (by norm_num : (0 : ℝ) < 180)]
      nlinarith
    rw [atan2_mul_cos_sin C (radians h) hC hθ1 hθ2, degrees_radians,
      if_neg (not_lt.mpr hh1), hchroma]
  · have e1 : C * Real.cos (radians h) = C * Real.cos (radians h - 2 * Real.pi) := by
      rw [Real.cos_sub_two_pi]
    have e2 : C * Real.sin (radians h) = C * Real.sin (radians h - 2 * Real.pi) := by
      rw [Real.sin_sub_two_pi]
    have hθ1 : -Real.pi < radians h - 2 * Real.pi := by
      rw [radians]
      rw [show (-Real.pi : ℝ) = Real.pi * 180 / 180 - 2 * Real.pi by ring]
      have : Real.pi * 180 < h * Real.pi * 180 / 180 * 180 := by nlinarith
      nlinarith
    have hθ2 : radians h - 2 * Real.pi ≤ Real.pi := by
      rw [radians]
      have : h * Real.pi / 180 ≤ 2 * Real.pi := by
        rw [div_le_iff (by norm_num : (0 : ℝ) < 180)]
        nlinarith
      linarith
    rw [e1, e2, atan2_mul_cos_sin C (radians h - 2 * Real.pi) hC hθ1 hθ2]
    have hdeg : degrees (radians h - 2 * Real.pi) = h - 360 := by
      rw [degrees, radians]
      field_simp
      ring
    rw [hdeg, if_pos (by linarith), hchroma]
    have : h - 360 + 360 = h := by ring
    rw [this]

/-- `Except.bind` of a success is application. -/
theorem except_bind_ok {α β : Type} (a : α) (g : α → Except Err β) :
    (Except.ok a).bind g = g a := rfl

/-- An XYZ value with nonzero coordinate sum and nonzero `Y` survives the trip
to xyY and back. -/
theorem XYZ_xyY_roundtrip (X Y Z : ℝ) (hs : X + Y + Z ≠ 0) (hY : Y ≠ 0) :
    (xyY.from_XYZ (X, Y, Z)).bind XYZ.from_xyY = .ok (X, Y, Z) := by
  have hy : Y / (X + Y + Z) ≠ 0 := div_ne_zero hY hs
  simp only [xyY.from_XYZ, if_neg hs, except_bind_ok, XYZ.from_xyY, if_neg hy]
  refine congrArg Except.ok ?_
  refine Prod.ext ?_ (Prod.ext ?_ ?_)
  · show X / (X + Y + Z) * Y / (Y / (X + Y + Z)) = X
    field_simp
  · rfl
  · show (1 - X / (X + Y + Z) - Y / (X + Y + Z)) * Y / (Y / (X + Y + Z)) = Z
    field_simp
    ring

/-- An xyY value with nonzero `y` and nonzero `Y` survives the trip to XYZ and
back. -/
theorem xyY_XYZ_roundtrip (x y Y : ℝ) (hy : y ≠ 0) (hY : Y ≠ 0) :
    (XYZ.from_xyY (x, y, Y)).bind xyY.from_XYZ = .ok (x, y, Y) := by
  have hsum : x * Y / y + Y + (1 - x - y) * Y / y = Y / y := by
    field_simp
    ring
  have hs : x * Y / y + Y + (1 - x - y) * Y / y ≠ 0 := by
    rw [hsum]
    exact div_ne_zero hY hy
  simp only [XYZ.from_xyY, if_neg hy, except_bind_ok, xyY.from_XYZ, if_neg hs]
  refine congrArg Except.ok ?_
  refine Prod.ext ?_ (Prod.ext ?_ ?_)
  · show x * Y / y / (x * Y / y + Y + (1 - x - y) * Y / y) = x
    rw [hsum]
    field_simp
  · show Y / (x * Y / y + Y + (1 - x - y) * Y / y) = y
    rw [hsum]
    field_simp
  · rfl

/-- An XYZ value survives the trip to CIELab and back (no side conditions). -/
theorem XYZ_CIELab_roundtrip (v : Triple) :
    XYZ.from_CIELab (CIELab.from_XYZ v) = v := by
  obtain ⟨X, Y, Z⟩ := v
  simp only [CIELab.from_XYZ, XYZ.from_CIELab, D65]
  have ea : ∀ fx fy : ℝ, (116 * fy - 16 + 16) / 116 + 500 * (fx - fy) / 500 = fx := by
    intro fx fy; ring
  have eb : ∀ fy : ℝ, (116 * fy - 16 + 16) / 116 = fy := by
    intro fy; ring
  have ec : ∀ fy fz : ℝ, (116 * fy - 16 + 16) / 116 - 200 * (fy - fz) / 200 = fz := by
    intro fy fz; ring
  rw [ea, ec, eb, f_inv_f, f_inv_f, f_inv_f]
  refine Prod.ext ?_ (Prod.ext ?_ ?_)
  · show (0.95047 : ℝ) * (X / 0.95047) = X
    field_simp
  · show (1.0 : ℝ) * (Y / 1.0) = Y
    norm_num
  · show (1.08883 : ℝ) * (Z / 1.08883) = Z
    field_simp

/-- A CIELab value survives the trip to XYZ and back (no side conditions). -/
theorem CIELab_XYZ_roundtrip (v : Triple) :
    CIELab.from_XYZ (XYZ.from_CIELab v) = v := by
  obtain ⟨L, a, b⟩ := v
  simp only [XYZ.from_CIELab, CIELab.from_XYZ, D65]
  have e1 : ∀ t : ℝ, (0.95047 : ℝ) * t / 0.95047 = t := fun t => by field_simp
  have e2 : ∀ t : ℝ, (1.0 : ℝ) * t / 1.0 = t := fun t => by norm_num
  have e3 : ∀ t : ℝ, (1.08883 : ℝ) * t / 1.08883 = t := fun t => by field_simp
  rw [e1, e2, e3, f_f_inv, f_f_inv, f_f_inv]
  refine Prod.ext ?_ (Prod.ext ?_ ?_)
  · show 116 * ((L + 16) / 116) - 16 = L
    ring
  · show 500 * ((L + 16) / 116 + a / 500 - (L + 16) / 116) = a
    ring
  · show 200 * ((L + 16) / 116 - ((L + 16) / 116 - b / 200)) = b
    ring

/-- Core evaluation of `XYZ.from_CIELuv` on a CIELuv value written in terms of
its target chromaticities `u', v'` and luminance `Y`: the three guards are
nonzero and the 2×2 solve yields the projective preimage. -/
theorem from_CIELuv_solve (L uP vP Y : ℝ) (hL : L ≠ 0) (huP : uP ≠ 0) (hvP : vP ≠ 0)
    (hYb : (if L > 8 then ((L + 16) / 116) ^ (3 : ℕ) else L * 27 / 24389) = Y) :
    XYZ.from_CIELuv (L, 13 * L * (uP - CIELuv.u_prime D65),
        13 * L * (vP - CIELuv.v_prime D65)) =
      .ok (9 * Y * uP / (4 * vP), Y, 3 * Y * (4 - uP) / (4 * vP) - 5 * Y) := by
  have h13 : (13 : ℝ) * L ≠ 0 := mul_ne_zero (by norm_num) hL
  have hg1 : 13 * L * (uP - CIELuv.u_prime D65) + 13 * L * CIELuv.u_prime D65 =
      13 * L * uP := by ring
  have hg1ne : 13 * L * (uP - CIELuv.u_prime D65) + 13 * L * CIELuv.u_prime D65 ≠ 0 := by
    rw [hg1]; exact mul_ne_zero h13 huP
  have hg2 : 13 * L * (vP - CIELuv.v_prime D65) + 13 * L * CIELuv.v_prime D65 =
      13 * L * vP := by ring
  have hg2ne : 13 * L * (vP - CIELuv.v_prime D65) + 13 * L * CIELuv.v_prime D65 ≠ 0 := by
    rw [hg2]; exact mul_ne_zero h13 hvP
  have ha : (1 : ℝ) / 3 *
      (52 * L / (13 * L * (uP - CIELuv.u_prime D65) + 13 * L * CIELuv.u_prime D65) - 1) -
      -(1 / 3) = 4 / (3 * uP) := by
    rw [hg1]
    field_simp
    ring
  have hg3ne : (1 : ℝ) / 3 *
      (52 * L / (13 * L * (uP - CIELuv.u_prime D65) + 13 * L * CIELuv.u_prime D65) - 1) -
      -(1 / 3) ≠ 0 := by
    rw [ha]
    exact div_ne_zero (by norm_num) (mul_ne_zero (by norm_num) huP)
  have e52 : 52 * L / (13 * L * uP) = 4 / uP := by
    field_simp
    ring
  have e39 : 39 * L / (13 * L * vP) = 3 / vP := by
    field_simp
    ring
  have hnum : Y * (3 / vP - 5) - -5 * Y = 3 * Y / vP := by
    field_simp
    ring
  have hden2 : (1 : ℝ) / 3 * (4 / uP - 1) - -(1 / 3) = 4 / (3 * uP) := by
    field_simp
    ring
  have hX : (Y * (3 / vP - 5) - -5 * Y) / ((1 : ℝ) / 3 * (4 / uP - 1) - -(1 / 3)) =
      9 * Y * uP / (4 * vP) := by
    rw [hnum, hden2, div_div_eq_mul_div]
    field_simp
    ring
  simp only [XYZ.from_CIELuv, hYb]
  rw [if_neg hg1ne, if_neg hg2ne, if_neg hg3ne]
  refine congrArg Except.ok ?_
  refine Prod.ext ?_ (Prod.ext rfl ?_)
  · show (Y * (39 * L / (13 * L * (vP - CIELuv.v_prime D65) +
        13 * L * CIELuv.v_prime D65) - 5) - -5 * Y) /
      ((1 : ℝ) / 3 * (52 * L / (13 * L * (uP - CIELuv.u_prime D65) +
        13 * L * CIELuv.u_prime D65) - 1) - -(1 / 3)) = 9 * Y * uP / (4 * vP)
    rw [hg1, hg2, e52, e39]
    exact hX
  · show (Y * (39 * L / (13 * L * (vP - CIELuv.v_prime D65) +
        13 * L * CIELuv.v_prime D65) - 5) - -5 * Y) /
      ((1 : ℝ) / 3 * (52 * L / (13 * L * (uP - CIELuv.u_prime D65) +
        13 * L * CIELuv.u_prime D65) - 1) - -(1 / 3)) *
      ((1 : ℝ) / 3 * (52 * L / (13 * L * (uP - CIELuv.u_prime D65) +
        13 * L * CIELuv.u_prime D65) - 1)) + -5 * Y =
      3 * Y * (4 - uP) / (4 * vP) - 5 * Y
    rw [hg1, hg2, e52, e39, hX]
    field_simp
    ring

/-- Above the CIELuv breakpoint the power-branch lightness exceeds 8. -/
theorem Lpow_gt8 (Y : ℝ) (h : Y > 216 / 24389) :
    116 * (Y / D65.2.1) ^ ((1 : ℝ) / 3) - 16 > 8 := by
  have hD : D65.2.1 = (1.0 : ℝ) := rfl
  rw [hD, show (Y / (1.0 : ℝ)) = Y by norm_num]
  have h2 : ((216 / 24389 : ℝ)) ^ ((1 : ℝ) / 3) < Y ^ ((1 : ℝ) / 3) :=
    Real.rpow_lt_rpow (by norm_num) h (by norm_num)
  rw [show ((216 / 24389 : ℝ)) = (6 / 29 : ℝ) ^ (3 : ℕ) by norm_num,
    pow_cubeRoot _ (by norm_num)] at h2
  nlinarith

/-- Above the CIELuv breakpoint, cubing the power-branch intermediate recovers
`Y`. -/
theorem Lpow_cube (Y : ℝ) (h : Y > 216 / 24389) :
    ((116 * (Y / D65.2.1) ^ ((1 : ℝ) / 3) - 16 + 16) / 116) ^ (3 : ℕ) = Y := by
  have hD : D65.2.1 = (1.0 : ℝ) := rfl
  rw [hD, show (Y / (1.0 : ℝ)) = Y by norm_num,
    show (116 * Y ^ ((1 : ℝ) / 3) - 16 + 16) / 116 = Y ^ ((1 : ℝ) / 3) by ring,
    cubeRoot_pow Y (by nlinarith)]

/-- At or below the CIELuv breakpoint the linear-branch lightness is at most
8. -/
theorem Llin_le8 (Y : ℝ) (h : ¬ Y > 216 / 24389) :
    ¬ (24389 / 27 * Y / D65.2.1 > 8) := by
  have hD : D65.2.1 = (1.0 : ℝ) := rfl
  rw [hD, show ((24389 : ℝ) / 27 * Y / 1.0) = 24389 / 27 * Y by norm_num]
  push_neg at h ⊢
  nlinarith

/-- An XYZ value off the degenerate plane with `X ≠ 0` and `Y ≠ 0` survives the
trip to CIELuv and back. -/
theorem XYZ_CIELuv_roundtrip (X Y Z : ℝ) (hden : X + 15 * Y + 3 * Z ≠ 0)
    (hX : X ≠ 0) (hY : Y ≠ 0) :
    (CIELuv.from_XYZ (X, Y, Z)).bind XYZ.from_CIELuv = .ok (X, Y, Z) := by
  have hu' : CIELuv.u_prime (X, Y, Z) ≠ 0 := by
    simp only [CIELuv.u_prime]
    exact div_ne_zero (mul_ne_zero (by norm_num) hX) hden
  have hv' : CIELuv.v_prime (X, Y, Z) ≠ 0 := by
    simp only [CIELuv.v_prime]
    exact div_ne_zero (mul_ne_zero (by norm_num) hY) hden
  have hLf : (if Y > 216 / 24389 then 116 * (Y / D65.2.1) ^ ((1 : ℝ) / 3) - 16
      else 24389 / 27 * Y / D65.2.1) ≠ 0 := by
    by_cases hYδ : Y > 216 / 24389
    · rw [if_pos hYδ]
      have := Lpow_gt8 Y hYδ
      linarith
    · rw [if_neg hYδ]
      have hD : D65.2.1 = (1.0 : ℝ) := rfl
      rw [hD, show ((24389 : ℝ) / 27 * Y / 1.0) = 24389 / 27 * Y by norm_num]
      exact mul_ne_zero (by norm_num) hY
  have hYb : (if (if Y > 216 / 24389 then 116 * (Y / D65.2.1) ^ ((1 : ℝ) / 3) - 16
        else 24389 / 27 * Y / D65.2.1) > 8
      then (((if Y > 216 / 24389 then 116 * (Y / D65.2.1) ^ ((1 : ℝ) / 3) - 16
        else 24389 / 27 * Y / D65.2.1) + 16) / 116) ^ (3 : ℕ)
      else (if Y > 216 / 24389 then 116 * (Y / D65.2.1) ^ ((1 : ℝ) / 3) - 16
        else 24389 / 27 * Y / D65.2.1) * 27 / 24389) = Y := by
    by_cases hYδ : Y > 216 / 24389
    · rw [if_pos hYδ, if_pos (Lpow_gt8 Y hYδ)]
      exact Lpow_cube Y hYδ
    · rw [if_neg hYδ, if_neg (Llin_le8 Y hYδ)]
      have hD : D65.2.1 = (1.0 : ℝ) := rfl
      rw [hD, show ((24389 : ℝ) / 27 * Y / 1.0) = 24389 / 27 * Y by norm_num]
      field_simp
  have hsolve := from_CIELuv_solve _ (CIELuv.u_prime (X, Y, Z))
    (CIELuv.v_prime (X, Y, Z)) Y hLf hu' hv' hYb
  simp only [CIELuv.from_XYZ, if_neg hden, except_bind_ok]
  rw [hsolve]
  refine congrArg Except.ok ?_
  refine Prod.ext ?_ (Prod.ext rfl ?_)
  · show 9 * Y * CIELuv.u_prime (X, Y, Z) / (4 * CIELuv.v_prime (X, Y, Z)) = X
    simp only [CIELuv.u_prime, CIELuv.v_prime]
    rw [div_eq_iff (by exact mul_ne_zero (by norm_num) (by simpa [CIELuv.v_prime] using hv'))]
    field_simp
    ring
  · show 3 * Y * (4 - CIELuv.u_prime (X, Y, Z)) / (4 * CIELuv.v_prime (X, Y, Z)) -
      5 * Y = Z
    simp only [CIELuv.u_prime, CIELuv.v_prime]
    rw [sub_eq_iff_eq_add, div_eq_iff
      (by exact mul_ne_zero (by norm_num) (by simpa [CIELuv.v_prime] using hv'))]
    field_simp
    ring

/-- A CIELuv value with `L ≠ 0` and nonsingular guard denominators survives the
trip to XYZ and back. -/
theorem CIELuv_XYZ_roundtrip (L u v : ℝ) (hL : L ≠ 0)
    (hu : u + 13 * L * CIELuv.u_prime D65 ≠ 0)
    (hv : v + 13 * L * CIELuv.v_prime D65 ≠ 0) :
    (XYZ.from_CIELuv (L, u, v)).bind CIELuv.from_XYZ = .ok (L, u, v) := by
  have h13 : (13 : ℝ) * L ≠ 0 := mul_ne_zero (by norm_num) hL
  set uP := (u + 13 * L * CIELuv.u_prime D65) / (13 * L) with huPdef
  set vP := (v + 13 * L * CIELuv.v_prime D65) / (13 * L) with hvPdef
  have huP : uP ≠ 0 := div_ne_zero hu h13
  have hvP : vP ≠ 0 := div_ne_zero hv h13
  have huu : u = 13 * L * (uP - CIELuv.u_prime D65) := by
    rw [huPdef]
    field_simp
  have hvv : v = 13 * L * (vP - CIELuv.v_prime D65) := by
    rw [hvPdef]
    field_simp
  set Y := (if L > 8 then ((L + 16) / 116) ^ (3 : ℕ) else L * 27 / 24389) with hYdef
  have hY : Y ≠ 0 := by
    rw [hYdef]
    by_cases hL8 : L > 8
    · rw [if_pos hL8]
      exact pow_ne_zero 3 (div_ne_zero (by linarith) (by norm_num))
    · rw [if_neg hL8]
      exact div_ne_zero (mul_ne_zero hL (by norm_num)) (by norm_num)
  have hsolve := from_CIELuv_solve L uP vP Y hL huP hvP hYdef.symm
  rw [show ((L, u, v) : Triple) =
      (L, 13 * L * (uP - CIELuv.u_prime D65), 13 * L * (vP - CIELuv.v_prime D65)) by
    rw [← huu, ← hvv]]
  rw [hsolve, except_bind_ok]
  have hdenw : 9 * Y * uP / (4 * vP) + 15 * Y +
      3 * (3 * Y * (4 - uP) / (4 * vP) - 5 * Y) = 9 * Y / vP := by
    field_simp
    ring
  have hdenw_ne : 9 * Y * uP / (4 * vP) + 15 * Y +
      3 * (3 * Y * (4 - uP) / (4 * vP) - 5 * Y) ≠ 0 := by
    rw [hdenw]
    exact div_ne_zero (mul_ne_zero (by norm_num) hY) hvP
  have hLrec : (if Y > 216 / 24389 then 116 * (Y / D65.2.1) ^ ((1 : ℝ) / 3) - 16
      else 24389 / 27 * Y / D65.2.1) = L := by
    rw [hYdef]
    by_cases hL8 : L > 8
    · rw [if_pos hL8]
      have h6 : (6 / 29 : ℝ) < (L + 16) / 116 := by
        rw [lt_div_iff (by norm_num)]
        linarith
      have hYgt : ((L + 16) / 116) ^ (3 : ℕ) > 216 / 24389 := by
        have h7 : (6 / 29 : ℝ) ^ (3 : ℕ) < ((L + 16) / 116) ^ (3 : ℕ) :=
          pow_lt_pow_left h6 (by norm_num) (by norm_num)
        have h8 : ((6 / 29 : ℝ)) ^ (3 : ℕ) = 216 / 24389 := by norm_num
        linarith
      rw [if_pos hYgt]
      have hD : D65.2.1 = (1.0 : ℝ) := rfl
      rw [hD, show (((L + 16) / 116) ^ (3 : ℕ) / (1.0 : ℝ)) = ((L + 16) / 116) ^ (3 : ℕ)
        by norm_num, pow_cubeRoot _ (by linarith : (0 : ℝ) ≤ (L + 16) / 116)]
      ring
    · rw [if_neg hL8]
      push_neg at hL8
      have hYle : ¬ (L * 27 / 24389 > 216 / 24389) := by
        push_neg
        rw [div_le_div_iff (by norm_num) (by norm_num)]
        linarith
      rw [if_neg hYle]
      have hD : D65.2.1 = (1.0 : ℝ) := rfl
      rw [hD]
      field_simp
      ring
  have hu'w : CIELuv.u_prime
      (9 * Y * uP / (4 * vP), Y, 3 * Y * (4 - uP) / (4 * vP) - 5 * Y) = uP := by
    simp only [CIELuv.u_prime]
    rw [hdenw, div_eq_iff (div_ne_zero (mul_ne_zero (by norm_num) hY) hvP)]
    field_simp
    ring
  have hv'w : CIELuv.v_prime
      (9 * Y * uP / (4 * vP), Y, 3 * Y * (4 - uP) / (4 * vP) - 5 * Y) = vP := by
    simp only [CIELuv.v_prime]
    rw [hdenw]
    field_simp
  simp only [CIELuv.from_XYZ]
  rw [if_neg hdenw_ne]
  refine congrArg Except.ok ?_
  refine Prod.ext hLrec (Prod.ext ?_ ?_)
  · show 13 * (if Y > 216 / 24389 then 116 * (Y / D65.2.1) ^ ((1 : ℝ) / 3) - 16
        else 24389 / 27 * Y / D65.2.1) *
      (CIELuv.u_prime (9 * Y * uP / (4 * vP), Y, 3 * Y * (4 - uP) / (4 * vP) - 5 * Y) -
        CIELuv.u_prime D65) = 13 * L * (uP - CIELuv.u_prime D65)
    rw [hLrec, hu'w]
  · show 13 * (if Y > 216 / 24389 then 116 * (Y / D65.2.1) ^ ((1 : ℝ) / 3) - 16
        else 24389 / 27 * Y / D65.2.1) *
      (CIELuv.v_prime (9 * Y * uP / (4 * vP), Y, 3 * Y * (4 - uP) / (4 * vP) - 5 * Y) -
        CIELuv.v_prime D65) = 13 * L * (vP - CIELuv.v_prime D65)
    rw [hLrec, hv'w]

/-- Python float modulo on an interval `[k·b, (k+1)·b)` subtracts `k·b`. -/
theorem pymod_eq_int (a b : ℝ) (k : ℤ) (hb : 0 < b) (h1 : (k : ℝ) * b ≤ a)
    (h2 : a < ((k : ℝ) + 1) * b) : pymod a b = a - b * (k : ℝ) := by
  rw [pymod]
  have hfloor : ⌊a / b⌋ = k := by
    rw [Int.floor_eq_iff]
    constructor
    · rw [le_div_iff hb]
      exact h1
    · rw [div_lt_iff hb]
      push_cast
      linarith
  rw [hfloor]

/-- `pymod` is the identity on `[0, b)`. -/
theorem pymod_self_of (a b : ℝ) (hb : 0 < b) (h1 : 0 ≤ a) (h2 : a < b) :
    pymod a b = a := by
  have := pymod_eq_int a b 0 hb (by push_cast; linarith) (by push_cast; linarith)
  simpa using this

/-- `pymod` adds `b` on `[-b, 0)`. -/
theorem pymod_add_of (a b : ℝ) (hb : 0 < b) (h1 : -b ≤ a) (h2 : a < 0) :
    pymod a b = a + b := by
  have := pymod_eq_int a b (-1) hb (by push_cast; linarith) (by push_cast; linarith)
  push_cast at this
  linarith

/-- `pymod` subtracts `b` on `[b, 2b)`. -/
theorem pymod_sub1 (a b : ℝ) (hb : 0 < b) (h1 : b ≤ a) (h2 : a < 2 * b) :
    pymod a b = a - b := by
  have := pymod_eq_int a b 1 hb (by push_cast; linarith) (by push_cast; linarith)
  push_cast at this
  linarith

/-- `pymod` subtracts `2b` on `[2b, 3b)`. -/
theorem pymod_sub2 (a b : ℝ) (hb : 0 < b) (h1 : 2 * b ≤ a) (h2 : a < 3 * b) :
    pymod a b = a - 2 * b := by
  have := pymod_eq_int a b 2 hb (by push_cast; linarith) (by push_cast; linarith)
  push_cast at this
  linarith

/-- `from_HSV` on hue sector 0 (`0 ≤ h < 1`, hue `60h`). -/
theorem from_HSV_sector0 (h S V : ℝ) (h0 : 0 ≤ h) (h1 : h < 1) :
    sRGB.from_HSV (60 * h, S, V) =
      (V * S + (V - V * S), V * S * h + (V - V * S), 0 + (V - V * S)) := by
  have h60 : 60 * h / 60 = h := by ring
  simp only [sRGB.from_HSV, h60]
  rw [if_pos h1, pymod_self_of h 2 (by norm_num) h0 (by linarith),
    abs_of_nonpos (by linarith)]
  refine Prod.ext (by ring) (Prod.ext (by ring) (by ring))

/-- `from_HSV` on hue sector 1 (`1 ≤ h < 2`). -/
theorem from_HSV_sector1 (h S V : ℝ) (h0 : 1 ≤ h) (h1 : h < 2) :
    sRGB.from_HSV (60 * h, S, V) =
      (V * S * (2 - h) + (V - V * S), V * S + (V - V * S), 0 + (V - V * S)) := by
  have h60 : 60 * h / 60 = h := by ring
  simp only [sRGB.from_HSV, h60]
  rw [if_neg (by linarith), if_pos h1,
    pymod_self_of h 2 (by norm_num) (by linarith) (by linarith),
    abs_of_nonneg (by linarith)]
  refine Prod.ext (by ring) (Prod.ext (by ring) (by ring))

/-- `from_HSV` on hue sector 2 (`2 ≤ h < 3`). -/
theorem from_HSV_sector2 (h S V : ℝ) (h0 : 2 ≤ h) (h1 : h < 3) :
    sRGB.from_HSV (60 * h, S, V) =
      (0 + (V - V * S), V * S + (V - V * S), V * S * (h - 2) + (V - V * S)) := by
  have h60 : 60 * h / 60 = h := by ring
  simp only [sRGB.from_HSV, h60]
  rw [if_neg (by linarith), if_neg (by linarith), if_pos h1,
    pymod_sub1 h 2 (by norm_num) (by linarith) (by linarith),
    abs_of_nonpos (by linarith)]
  refine Prod.ext (by ring) (Prod.ext (by ring) (by ring))

/-- `from_HSV` on hue sector 3 (`3 ≤ h < 4`). -/
theorem from_HSV_sector3 (h S V : ℝ) (h0 : 3 ≤ h) (h1 : h < 4) :
    sRGB.from_HSV (60 * h, S, V) =
      (0 + (V - V * S), V * S * (4 - h) + (V - V * S), V * S + (V - V * S)) := by
  have h60 : 60 * h / 60 = h := by ring
  simp only [sRGB.from_HSV, h60]
  rw [if_neg (by linarith), if_neg (by linarith), if_neg (by linarith), if_pos h1,
    pymod_sub1 h 2 (by norm_num) (by linarith) (by linarith),
    abs_of_nonneg (by linarith)]
  refine Prod.ext (by ring) (Prod.ext (by ring) (by ring))

/-- `from_HSV` on hue sector 4 (`4 ≤ h < 5`). -/
theorem from_HSV_sector4 (h S V : ℝ) (h0 : 4 ≤ h) (h1 : h < 5) :
    sRGB.from_HSV (60 * h, S, V) =
      (V * S * (h - 4) + (V - V * S), 0 + (V - V * S), V * S + (V - V * S)) := by
  have h60 : 60 * h / 60 = h := by ring
  simp only [sRGB.from_HSV, h60]
  rw [if_neg (by linarith), if_neg (by linarith), if_neg (by linarith),
    if_neg (by linarith), if_pos h1,
    pymod_sub2 h 2 (by norm_num) (by linarith) (by linarith),
    abs_of_nonpos (by linarith)]
  refine Prod.ext (by ring) (Prod.ext (by ring) (by ring))

/-- `from_HSV` on hue sector 5 (`5 ≤ h < 6`). -/
theorem from_HSV_sector5 (h S V : ℝ) (h0 : 5 ≤ h) (h1 : h < 6) :
    sRGB.from_HSV (60 * h, S, V) =
      (V * S + (V - V * S), 0 + (V - V * S), V * S * (6 - h) + (V - V * S)) := by
  have h60 : 60 * h / 60 = h := by ring
  simp only [sRGB.from_HSV, h60]
  rw [if_neg (by linarith), if_neg (by linarith), if_neg (by linarith),
    if_neg (by linarith), if_neg (by linarith),
    pymod_sub2 h 2 (by norm_num) (by linarith) (by linarith),
    abs_of_nonneg (by linarith)]
  refine Prod.ext (by ring) (Prod.ext (by ring) (by ring))

/-- Multiplying a quotient by its denominator recovers the numerator. -/
theorem mul_div_self_of_ne (a b : ℝ) (hb : b ≠ 0) : b * (a / b) = a := by
  rw [mul_comm]
  exact div_mul_cancel₀ a hb

/-- An sRGB value with nonnegative channels survives the trip to HSV and
back. -/
theorem sRGB_HSV_roundtrip (R G B : ℝ) (hR : 0 ≤ R) (hG : 0 ≤ G) (hB : 0 ≤ B) :
    sRGB.from_HSV (sRGB.HSV (R, G, B)) = (R, G, B) := by
  have hRM : R ≤ max R (max G B) := le_max_left _ _
  have hGM : G ≤ max R (max G B) := le_trans (le_max_left G B) (le_max_right _ _)
  have hBM : B ≤ max R (max G B) := le_trans (le_max_right G B) (le_max_right _ _)
  have hmR : min R (min G B) ≤ R := min_le_left _ _
  have hmG : min R (min G B) ≤ G := le_trans (min_le_right _ _) (min_le_left G B)
  have hmB : min R (min G B) ≤ B := le_trans (min_le_right _ _) (min_le_right G B)
  have hm0 : 0 ≤ min R (min G B) := le_min hR (le_min hG hB)
  have hC0 : 0 ≤ max R (max G B) - min R (min G B) := by linarith
  simp only [sRGB.HSV]
  by_cases hC : max R (max G B) - min R (min G B) = 0
  · have hRe : max R (max G B) = R := le_antisymm (by linarith) hRM
    have hGe : max R (max G B) = G := le_antisymm (by linarith) hGM
    have hBe : max R (max G B) = B := le_antisymm (by linarith) hBM
    rw [if_pos hC]
    have hS0 : (if max R (max G B) = 0 then (0 : ℝ)
        else (max R (max G B) - min R (min G B)) / max R (max G B)) = 0 := by
      split_ifs
      · rfl
      · rw [hC, zero_div]
    rw [hS0, show ((0 : ℝ), (0 : ℝ), max R (max G B)) =
        ((60 * 0 : ℝ), (0 : ℝ), max R (max G B)) by norm_num,
      from_HSV_sector0 0 0 _ le_rfl (by norm_num)]
    simp only [Prod.mk.injEq]
    exact ⟨by ring_nf; linarith, by ring_nf; linarith, by ring_nf; linarith⟩
  · have hCpos : 0 < max R (max G B) - min R (min G B) := lt_of_le_of_ne hC0 (Ne.symm hC)
    have hMpos : 0 < max R (max G B) := by linarith
    have hMne : max R (max G B) ≠ 0 := ne_of_gt hMpos
    rw [if_neg hC, if_neg hMne]
    have hCM : max R (max G B) *
        ((max R (max G B) - min R (min G B)) / max R (max G B)) =
        max R (max G B) - min R (min G B) := by
      field_simp
    by_cases hMR : max R (max G B) = R
    · have ht_ub : (G - B) / (max R (max G B) - min R (min G B)) ≤ 1 := by
        rw [div_le_one hCpos]
        linarith
      have ht_lb : -1 ≤ (G - B) / (max R (max G B) - min R (min G B)) := by
        rw [le_div_iff hCpos]
        nlinarith
      rw [if_pos hMR]
      by_cases hGB : B ≤ G
      · have ht0 : 0 ≤ (G - B) / (max R (max G B) - min R (min G B)) :=
          div_nonneg (by linarith) hC0
        have hmB' : min R (min G B) = B := by
          rw [min_eq_right hGB, min_eq_right (by linarith : B ≤ R)]
        rw [pymod_self_of _ 6 (by norm_num) ht0 (by linarith)]
        by_cases ht1 : (G - B) / (max R (max G B) - min R (min G B)) < 1
        · rw [from_HSV_sector0 _ _ _ ht0 ht1, hCM]
          have hXt : (max R (max G B) - min R (min G B)) *
              ((G - B) / (max R (max G B) - min R (min G B))) = G - B :=
            mul_div_self_of_ne _ _ hC
          rw [hXt]
          simp only [Prod.mk.injEq]
          exact ⟨by linarith, by linarith, by linarith⟩
        · push_neg at ht1
          have hteq : (G - B) / (max R (max G B) - min R (min G B)) = 1 :=
            le_antisymm ht_ub ht1
          have hGBeq : G - B = max R (max G B) - min R (min G B) :=
            (div_eq_one_iff_eq hC).mp hteq
          rw [hteq, from_HSV_sector1 1 _ _ le_rfl (by norm_num), hCM]
          simp only [Prod.mk.injEq]
          exact ⟨by ring_nf; linarith, by ring_nf; linarith, by ring_nf; linarith⟩
      · push_neg at hGB
        have htneg : (G - B) / (max R (max G B) - min R (min G B)) < 0 :=
          div_neg_of_neg_of_pos (by linarith) hCpos
        have hmG' : min R (min G B) = G := by
          rw [min_eq_left hGB.le, min_eq_right (by linarith : G ≤ R)]
        rw [pymod_add_of _ 6 (by norm_num) (by linarith) htneg,
          from_HSV_sector5 _ _ _ (by linarith) (by linarith), hCM]
        have hXt : (max R (max G B) - min R (min G B)) *
            (6 - ((G - B) / (max R (max G B) - min R (min G B)) + 6)) = B - G := by
          rw [show (6 : ℝ) - ((G - B) / (max R (max G B) - min R (min G B)) + 6) =
            (B - G) / (max R (max G B) - min R (min G B)) by ring]
          exact mul_div_self_of_ne _ _ hC
        rw [hXt]
        simp only [Prod.mk.injEq]
        exact ⟨by linarith, by linarith, by linarith⟩
    · by_cases hMG : max R (max G B) = G
      · have ht_ub : (B - R) / (max R (max G B) - min R (min G B)) ≤ 1 := by
          rw [div_le_one hCpos]
          linarith
        have ht_lb : -1 ≤ (B - R) / (max R (max G B) - min R (min G B)) := by
          rw [le_div_iff hCpos]
          nlinarith
        rw [if_neg hMR, if_pos hMG]
        by_cases hBR : R ≤ B
        · have ht0 : 0 ≤ (B - R) / (max R (max G B) - min R (min G B)) :=
            div_nonneg (by linarith) hC0
          have hmR' : min R (min G B) = R :=
            min_eq_left (le_min (by linarith : R ≤ G) hBR)
          by_cases ht1 : (B - R) / (max R (max G B) - min R (min G B)) < 1
          · rw [from_HSV_sector2 _ _ _ (by linarith) (by linarith), hCM]
            have hXt : (max R (max G B) - min R (min G B)) *
                ((B - R) / (max R (max G B) - min R (min G B)) + 2 - 2) = B - R := by
              rw [show (B - R) / (max R (max G B) - min R (min G B)) + 2 - 2 =
                (B - R) / (max R (max G B) - min R (min G B)) by ring]
              exact mul_div_self_of_ne _ _ hC
            rw [hXt]
            simp only [Prod.mk.injEq]
            exact ⟨by linarith, by linarith, by linarith⟩
          · push_neg at ht1
            have hteq : (B - R) / (max R (max G B) - min R (min G B)) = 1 :=
              le_antisymm ht_ub ht1
            have hBReq : B - R = max R (max G B) - min R (min G B) :=
              (div_eq_one_iff_eq hC).mp hteq
            rw [hteq, show ((1 : ℝ) + 2) = 3 by norm_num,
              from_HSV_sector3 3 _ _ le_rfl (by norm_num), hCM]
            refine Prod.ext (by ring_nf; linarith) (Prod.ext (by ring_nf; linarith)
              (by ring_nf; linarith))
        · push_neg at hBR
          have htneg : (B - R) / (max R (max G B) - min R (min G B)) < 0 :=
            div_neg_of_neg_of_pos (by linarith) hCpos
          have hmB' : min R (min G B) = B := by
            rw [min_eq_right (by linarith : B ≤ G), min_eq_right hBR.le]
          rw [from_HSV_sector1 _ _ _ (by linarith) (by linarith), hCM]
          have hXt : (max R (max G B) - min R (min G B)) *
              (2 - ((B - R) / (max R (max G B) - min R (min G B)) + 2)) = R - B := by
            rw [show (2 : ℝ) - ((B - R) / (max R (max G B) - min R (min G B)) + 2) =
              (R - B) / (max R (max G B) - min R (min G B)) by ring]
            exact mul_div_self_of_ne _ _ hC
          rw [hXt]
          simp only [Prod.mk.injEq]
          exact ⟨by linarith, by linarith, by linarith⟩
      · have hMB : max R (max G B) = B := by
          rcases max_choice R (max G B) with h | h
          · exact absurd h hMR
          · rcases max_choice G B with h2 | h2
            · exact absurd (h.trans h2) hMG
            · exact h.trans h2
        have ht_ub : (R - G) / (max R (max G B) - min R (min G B)) ≤ 1 := by
          rw [div_le_one hCpos]
          linarith
        have ht_lb : -1 ≤ (R - G) / (max R (max G B) - min R (min G B)) := by
          rw [le_div_iff hCpos]
          nlinarith
        rw [if_neg hMR, if_neg hMG]
        by_cases hRG : G ≤ R
        · have ht0 : 0 ≤ (R - G) / (max R (max G B) - min R (min G B)) :=
            div_nonneg (by linarith) hC0
          have hmG' : min R (min G B) = G := by
            rw [min_eq_left (by linarith : G ≤ B), min_eq_right hRG]
          have ht1 : (R - G) / (max R (max G B) - min R (min G B)) < 1 := by
            rcases lt_or_le ((R - G) / (max R (max G B) - min R (min G B))) 1 with h | h
            · exact h
            · exfalso
              have hteq : (R - G) / (max R (max G B) - min R (min G B)) = 1 :=
                le_antisymm ht_ub h
              have hRGeq : R - G = max R (max G B) - min R (min G B) :=
                (div_eq_one_iff_eq hC).mp hteq
              exact hMR (le_antisymm (by linarith) hRM)
          rw [from_HSV_sector4 _ _ _ (by linarith) (by linarith), hCM]
          have hXt : (max R (max G B) - min R (min G B)) *
              ((R - G) / (max R (max G B) - min R (min G B)) + 4 - 4) = R - G := by
            rw [show (R - G) / (max R (max G B) - min R (min G B)) + 4 - 4 =
              (R - G) / (max R (max G B) - min R (min G B)) by ring]
            exact mul_div_self_of_ne _ _ hC
          rw [hXt]
          simp only [Prod.mk.injEq]
          exact ⟨by linarith, by linarith, by linarith⟩
        · push_neg at hRG
          have htneg : (R - G) / (max R (max G B) - min R (min G B)) < 0 :=
            div_neg_of_neg_of_pos (by linarith) hCpos
          have hmR' : min R (min G B) = R :=
            min_eq_left (le_min hRG.le (by linarith : R ≤ B))
          rw [from_HSV_sector3 _ _ _ (by linarith) (by linarith), hCM]
          have hXt : (max R (max G B) - min R (min G B)) *
              (4 - ((R - G) / (max R (max G B) - min R (min G B)) + 4)) = G - R := by
            rw [show (4 : ℝ) - ((R - G) / (max R (max G B) - min R (min G B)) + 4) =
              (G - R) / (max R (max G B) - min R (min G B)) by ring]
            exact mul_div_self_of_ne _ _ hC
          rw [hXt]
          simp only [Prod.mk.injEq]
          exact ⟨by linarith, by linarith, by linarith⟩

/-- An HSV value with hue in `[0, 360)` and positive saturation and value
survives the trip to sRGB and back. -/
theorem HSV_sRGB_roundtrip (H S V : ℝ) (hH0 : 0 ≤ H) (hH1 : H < 360)
    (hS : 0 < S) (hV : 0 < V) :
    sRGB.HSV (sRGB.from_HSV (H, S, V)) = (H, S, V) := by
  have hC : 0 < V * S := mul_pos hV hS
  have hh0 : 0 ≤ H / 60 := div_nonneg hH0 (by norm_num)
  have hh6 : H / 60 < 6 := by
    rw [div_lt_iff (by norm_num)]
    linarith
  have hm'V : V - V * S ≤ V := by nlinarith
  have hsrec : (V - (V - V * S)) / V = S := by
    rw [show V - (V - V * S) = V * S by ring]
    exact mul_div_cancel_left₀ _ (ne_of_gt hV)
  have hCne : ¬ (V - (V - V * S) = 0) := by
    intro hx
    nlinarith
  have hVm' : ¬ (V = V - V * S) := by
    intro hx
    nlinarith
  rw [show ((H : ℝ), S, V) = ((60 * (H / 60) : ℝ), S, V) by
    rw [show (60 : ℝ) * (H / 60) = H by ring]]
  rcases lt_or_le (H / 60) 1 with hs1 | hs1
  · -- sector 0
    rw [from_HSV_sector0 _ S V hh0 hs1,
      show ((V * S + (V - V * S) : ℝ), V * S * (H / 60) + (V - V * S),
          0 + (V - V * S)) = ((V : ℝ), V * S * (H / 60) + (V - V * S), V - V * S) from
        Prod.ext (by ring) (Prod.ext rfl (by ring))]
    have hXnn : 0 ≤ V * S * (H / 60) := mul_nonneg hC.le hh0
    have hXle : V * S * (H / 60) ≤ V * S := by nlinarith
    simp only [sRGB.HSV]
    rw [max_eq_left (by linarith : V - V * S ≤ V * S * (H / 60) + (V - V * S)),
      max_eq_left (by linarith : V * S * (H / 60) + (V - V * S) ≤ V),
      min_eq_right (by linarith : V - V * S ≤ V * S * (H / 60) + (V - V * S)),
      min_eq_right hm'V, if_neg hCne, if_pos rfl,
      show (V * S * (H / 60) + (V - V * S) - (V - V * S)) / (V - (V - V * S)) =
          H / 60 from by
        rw [show V * S * (H / 60) + (V - V * S) - (V - V * S) = V * S * (H / 60)
            by ring, show V - (V - V * S) = V * S by ring]
        exact mul_div_cancel_left₀ _ (ne_of_gt hC),
      pymod_self_of _ 6 (by norm_num) hh0 (by linarith),
      if_neg (ne_of_gt hV), hsrec]
  · rcases lt_or_le (H / 60) 2 with hs2 | hs2
    · -- sector 1
      rcases eq_or_lt_of_le hs1 with heq | hlt
      · rw [← heq, from_HSV_sector1 1 S V le_rfl (by norm_num),
          show ((V * S * (2 - 1) + (V - V * S) : ℝ), V * S + (V - V * S),
              0 + (V - V * S)) = ((V : ℝ), V, V - V * S) from
            Prod.ext (by ring) (Prod.ext (by ring) (by ring))]
        simp only [sRGB.HSV]
        rw [max_eq_left hm'V, max_self, min_eq_right hm'V, min_eq_right hm'V,
          if_neg hCne, if_pos rfl, div_self hCne,
          pymod_self_of 1 6 (by norm_num) (by norm_num) (by norm_num),
          if_neg (ne_of_gt hV), hsrec]
      · rw [from_HSV_sector1 _ S V hs1 hs2,
          show ((V * S * (2 - H / 60) + (V - V * S) : ℝ), V * S + (V - V * S),
              0 + (V - V * S)) =
            ((V * S * (2 - H / 60) + (V - V * S) : ℝ), (V : ℝ), V - V * S) from
          Prod.ext rfl (Prod.ext (by ring) (by ring))]
        have hXnn : 0 ≤ V * S * (2 - H / 60) := mul_nonneg hC.le (by linarith)
        have hXlt : V * S * (2 - H / 60) < V * S := by nlinarith
        simp only [sRGB.HSV]
        rw [max_eq_left hm'V,
          max_eq_right (by linarith : V * S * (2 - H / 60) + (V - V * S) ≤ V),
          min_eq_right hm'V,
          min_eq_right (by linarith : V - V * S ≤ V * S * (2 - H / 60) + (V - V * S)),
          if_neg hCne,
          if_neg (by intro hx; nlinarith :
            ¬ (V = V * S * (2 - H / 60) + (V - V * S))),
          if_pos rfl,
          show (V - V * S - (V * S * (2 - H / 60) + (V - V * S))) / (V - (V - V * S)) =
              H / 60 - 2 from by
            rw [show V - V * S - (V * S * (2 - H / 60) + (V - V * S)) =
                V * S * (H / 60 - 2) by ring, show V - (V - V * S) = V * S by ring]
            exact mul_div_cancel_left₀ _ (ne_of_gt hC),
          if_neg (ne_of_gt hV), hsrec]
        exact Prod.ext (by ring) rfl
    · rcases lt_or_le (H / 60) 3 with hs3 | hs3
      · -- sector 2
        rw [from_HSV_sector2 _ S V hs2 hs3,
          show ((0 + (V - V * S) : ℝ), V * S + (V - V * S),
              V * S * (H / 60 - 2) + (V - V * S)) =
            ((V - V * S : ℝ), (V : ℝ), V * S * (H / 60 - 2) + (V - V * S)) from
          Prod.ext (by ring) (Prod.ext (by ring) rfl)]
        have hXnn : 0 ≤ V * S * (H / 60 - 2) := mul_nonneg hC.le (by linarith)
        have hXlt : V * S * (H / 60 - 2) < V * S := by nlinarith
        simp only [sRGB.HSV]
        rw [max_eq_left (by linarith : V * S * (H / 60 - 2) + (V - V * S) ≤ V),
          max_eq_right hm'V,
          min_eq_right (by linarith : V * S * (H / 60 - 2) + (V - V * S) ≤ V),
          min_eq_left (by linarith : V - V * S ≤ V * S * (H / 60 - 2) + (V - V * S)),
          if_neg hCne, if_neg hVm', if_pos rfl,
          show (V * S * (H / 60 - 2) + (V - V * S) - (V - V * S)) / (V - (V - V * S)) =
              H / 60 - 2 from by
            rw [show V * S * (H / 60 - 2) + (V - V * S) - (V - V * S) =
                V * S * (H / 60 - 2) by ring, show V - (V - V * S) = V * S by ring]
            exact mul_div_cancel_left₀ _ (ne_of_gt hC),
          if_neg (ne_of_gt hV), hsrec]
        exact Prod.ext (by ring) rfl
      · rcases lt_or_le (H / 60) 4 with hs4 | hs4
        · -- sector 3
          rcases eq_or_lt_of_le hs3 with heq | hlt
          · rw [← heq, from_HSV_sector3 3 S V le_rfl (by norm_num),
              show ((0 + (V - V * S) : ℝ), V * S * (4 - 3) + (V - V * S),
                  V * S + (V - V * S)) = ((V - V * S : ℝ), (V : ℝ), V) from
                Prod.ext (by ring) (Prod.ext (by ring) (by ring))]
            simp only [sRGB.HSV]
            rw [max_self, max_eq_right hm'V, min_self, min_eq_left hm'V,
              if_neg hCne, if_neg hVm', if_pos rfl, div_self hCne]
            refine Prod.ext (by norm_num) (Prod.ext ?_ rfl)
            rw [if_neg (ne_of_gt hV), hsrec]
          · rw [from_HSV_sector3 _ S V hs3 hs4,
              show ((0 + (V - V * S) : ℝ), V * S * (4 - H / 60) + (V - V * S),
                  V * S + (V - V * S)) =
                ((V - V * S : ℝ), V * S * (4 - H / 60) + (V - V * S), (V : ℝ)) from
              Prod.ext (by ring) (Prod.ext rfl (by ring))]
            have hXnn : 0 ≤ V * S * (4 - H / 60) := mul_nonneg hC.le (by linarith)
            have hXlt : V * S * (4 - H / 60) < V * S := by nlinarith
            simp only [sRGB.HSV]
            rw [max_eq_right (by linarith : V * S * (4 - H / 60) + (V - V * S) ≤ V),
              max_eq_right hm'V,
              min_eq_left (by linarith : V * S * (4 - H / 60) + (V - V * S) ≤ V),
              min_eq_left (by linarith : V - V * S ≤ V * S * (4 - H / 60) + (V - V * S)),
              if_neg hCne, if_neg hVm',
              if_neg (by intro hx; nlinarith :
                ¬ (V = V * S * (4 - H / 60) + (V - V * S))),
              show (V - V * S - (V * S * (4 - H / 60) + (V - V * S))) /
                  (V - (V - V * S)) = H / 60 - 4 from by
                rw [show V - V * S - (V * S * (4 - H / 60) + (V - V * S)) =
                    V * S * (H / 60 - 4) by ring, show V - (V - V * S) = V * S by ring]
                exact mul_div_cancel_left₀ _ (ne_of_gt hC),
              if_neg (ne_of_gt hV), hsrec]
            exact Prod.ext (by ring) rfl
        · rcases lt_or_le (H / 60) 5 with hs5 | hs5
          · -- sector 4
            rw [from_HSV_sector4 _ S V hs4 hs5,
              show ((V * S * (H / 60 - 4) + (V - V * S) : ℝ), 0 + (V - V * S),
                  V * S + (V - V * S)) =
                ((V * S * (H / 60 - 4) + (V - V * S) : ℝ), (V - V * S : ℝ), V) from
              Prod.ext rfl (Prod.ext (by ring) (by ring))]
            have hXnn : 0 ≤ V * S * (H / 60 - 4) := mul_nonneg hC.le (by linarith)
            have hXlt : V * S * (H / 60 - 4) < V * S := by nlinarith
            simp only [sRGB.HSV]
            rw [max_eq_right hm'V,
              max_eq_right (by linarith : V * S * (H / 60 - 4) + (V - V * S) ≤ V),
              min_eq_left hm'V,
              min_eq_right (by linarith : V - V * S ≤ V * S * (H / 60 - 4) + (V - V * S)),
              if_neg hCne,
              if_neg (by intro hx; nlinarith :
                ¬ (V = V * S * (H / 60 - 4) + (V - V * S))),
              if_neg hVm',
              show (V * S * (H / 60 - 4) + (V - V * S) - (V - V * S)) /
                  (V - (V - V * S)) = H / 60 - 4 from by
                rw [show V * S * (H / 60 - 4) + (V - V * S) - (V - V * S) =
                    V * S * (H / 60 - 4) by ring, show V - (V - V * S) = V * S by ring]
                exact mul_div_cancel_left₀ _ (ne_of_gt hC),
              if_neg (ne_of_gt hV), hsrec]
            exact Prod.ext (by ring) rfl
          · -- sector 5
            rw [from_HSV_sector5 _ S V hs5 hh6,
              show ((V * S + (V - V * S) : ℝ), 0 + (V - V * S),
                  V * S * (6 - H / 60) + (V - V * S)) =
                ((V : ℝ), (V - V * S : ℝ), V * S * (6 - H / 60) + (V - V * S)) from
              Prod.ext (by ring) (Prod.ext (by ring) rfl)]
            have hXnn : 0 ≤ V * S * (6 - H / 60) := mul_nonneg hC.le (by linarith)
            have hXle : V * S * (6 - H / 60) ≤ V * S := by nlinarith
            simp only [sRGB.HSV]
            rw [max_eq_right (by linarith : V - V * S ≤ V * S * (6 - H / 60) + (V - V * S)),
              max_eq_left (by linarith : V * S * (6 - H / 60) + (V - V * S) ≤ V),
              min_eq_left (by linarith : V - V * S ≤ V * S * (6 - H / 60) + (V - V * S)),
              min_eq_right hm'V, if_neg hCne, if_pos rfl,
              show (V - V * S - (V * S * (6 - H / 60) + (V - V * S))) /
                  (V - (V - V * S)) = H / 60 - 6 from by
                rw [show V - V * S - (V * S * (6 - H / 60) + (V - V * S)) =
                    V * S * (H / 60 - 6) by ring, show V - (V - V * S) = V * S by ring]
                exact mul_div_cancel_left₀ _ (ne_of_gt hC),
              pymod_add_of _ 6 (by norm_num) (by linarith) (by linarith),
              if_neg (ne_of_gt hV), hsrec]
            exact Prod.ext (by ring) rfl

/-- `Except.map` of a success is application. -/
theorem except_map_ok {α β : Type} (a : α) (g : α → β) :
    (Except.ok a : Except Err α).map g = .ok (g a) := rfl

/-- `xyY.from_XYZ` sends the XYZ image of an xyY value back to it. -/
theorem xyY_from_XYZ_inter (x y Y : ℝ) (hy : y ≠ 0) (hY : Y ≠ 0) :
    xyY.from_XYZ (x * Y / y, Y, (1 - x - y) * Y / y) = .ok (x, y, Y) := by
  have h1 := xyY_XYZ_roundtrip x y Y hy hY
  rw [XYZ.from_xyY, if_neg hy, except_bind_ok] at h1
  exact h1

/-- Hub-composed round trip xyY → XYZ → CIELab → XYZ → xyY. -/
theorem xyY_CIELab_roundtrip (x y Y : ℝ) (hy : y ≠ 0) (hY : Y ≠ 0) :
    ((XYZ.from_xyY (x, y, Y)).map CIELab.from_XYZ).bind
      (fun t => xyY.from_XYZ (XYZ.from_CIELab t)) = .ok (x, y, Y) := by
  rw [XYZ.from_xyY, if_neg hy, except_map_ok, except_bind_ok, XYZ_CIELab_roundtrip]
  exact xyY_from_XYZ_inter x y Y hy hY

/-- Hub-composed round trip CIELab → XYZ → xyY → XYZ → CIELab. -/
theorem CIELab_xyY_roundtrip (L a b : ℝ)
    (hs : (XYZ.from_CIELab (L, a, b)).1 + (XYZ.from_CIELab (L, a, b)).2.1 +
      (XYZ.from_CIELab (L, a, b)).2.2 ≠ 0)
    (hY : (XYZ.from_CIELab (L, a, b)).2.1 ≠ 0) :
    (xyY.from_XYZ (XYZ.from_CIELab (L, a, b))).bind
      (fun t => (XYZ.from_xyY t).map CIELab.from_XYZ) = .ok (L, a, b) := by
  have h1 := XYZ_xyY_roundtrip (XYZ.from_CIELab (L, a, b)).1
    (XYZ.from_CIELab (L, a, b)).2.1 (XYZ.from_CIELab (L, a, b)).2.2 hs hY
  simp only [Prod.mk.eta] at h1
  rcases hE : xyY.from_XYZ (XYZ.from_CIELab (L, a, b)) with e | t
  · rw [hE] at h1
    exact Except.noConfusion h1
  · rw [hE, except_bind_ok] at h1
    rw [except_bind_ok, h1, except_map_ok, CIELab_XYZ_roundtrip]

/-- Hub-composed round trip xyY → XYZ → CIELuv → XYZ → xyY. -/
theorem xyY_CIELuv_roundtrip (x y Y : ℝ) (hy : y ≠ 0) (hY : Y ≠ 0)
    (hden : x * Y / y + 15 * Y + 3 * ((1 - x - y) * Y / y) ≠ 0)
    (hx : x * Y / y ≠ 0) :
    ((XYZ.from_xyY (x, y, Y)).bind CIELuv.from_XYZ).bind
      (fun t => (XYZ.from_CIELuv t).bind xyY.from_XYZ) = .ok (x, y, Y) := by
  rw [XYZ.from_xyY, if_neg hy, except_bind_ok]
  have h1 := XYZ_CIELuv_roundtrip (x * Y / y) Y ((1 - x - y) * Y / y) hden hx hY
  rcases hE : CIELuv.from_XYZ (x * Y / y, Y, (1 - x - y) * Y / y) with e | t
  · rw [hE] at h1
    exact Except.noConfusion h1
  · rw [hE, except_bind_ok] at h1
    rw [except_bind_ok, h1, except_bind_ok]
    exact xyY_from_XYZ_inter x y Y hy hY

/-- Hub-composed round trip CIELuv → XYZ → xyY → XYZ → CIELuv. -/
theorem CIELuv_xyY_roundtrip (L u v : ℝ) (hL : L ≠ 0)
    (hu : u + 13 * L * CIELuv.u_prime D65 ≠ 0)
    (hv : v + 13 * L * CIELuv.v_prime D65 ≠ 0)
    (w : Triple) (hw : XYZ.from_CIELuv (L, u, v) = .ok w)
    (hs : w.1 + w.2.1 + w.2.2 ≠ 0) (hY : w.2.1 ≠ 0) :
    ((XYZ.from_CIELuv (L, u, v)).bind xyY.from_XYZ).bind
      (fun t => (XYZ.from_xyY t).bind CIELuv.from_XYZ) = .ok (L, u, v) := by
  have h1 := CIELuv_XYZ_roundtrip L u v hL hu hv
  rw [hw, except_bind_ok] at h1
  rw [hw, except_bind_ok]
  have h2 := XYZ_xyY_roundtrip w.1 w.2.1 w.2.2 hs hY
  simp only [Prod.mk.eta] at h2
  rcases hE : xyY.from_XYZ w with e | t
  · rw [hE] at h2
    exact Except.noConfusion h2
  · rw [hE, except_bind_ok] at h2
    rw [except_bind_ok, h2, except_bind_ok, h1]

/-- Hub-composed round trip CIELab → XYZ → CIELuv → XYZ → CIELab. -/
theorem CIELab_CIELuv_roundtrip (L a b : ℝ)
    (hden : (XYZ.from_CIELab (L, a, b)).1 + 15 * (XYZ.from_CIELab (L, a, b)).2.1 +
      3 * (XYZ.from_CIELab (L, a, b)).2.2 ≠ 0)
    (hX : (XYZ.from_CIELab (L, a, b)).1 ≠ 0)
    (hY : (XYZ.from_CIELab (L, a, b)).2.1 ≠ 0) :
    (CIELuv.from_XYZ (XYZ.from_CIELab (L, a, b))).bind
      (fun t => (XYZ.from_CIELuv t).map CIELab.from_XYZ) = .ok (L, a, b) := by
  have h1 := XYZ_CIELuv_roundtrip (XYZ.from_CIELab (L, a, b)).1
    (XYZ.from_CIELab (L, a, b)).2.1 (XYZ.from_CIELab (L, a, b)).2.2 hden hX hY
  simp only [Prod.mk.eta] at h1
  rcases hE : CIELuv.from_XYZ (XYZ.from_CIELab (L, a, b)) with e | t
  · rw [hE] at h1
    exact Except.noConfusion h1
  · rw [hE, except_bind_ok] at h1
    rw [except_bind_ok, h1, except_map_ok, CIELab_XYZ_roundtrip]

/-- Hub-composed round trip CIELuv → XYZ → CIELab → XYZ → CIELuv. -/
theorem CIELuv_CIELab_roundtrip (L u v : ℝ) (hL : L ≠ 0)
    (hu : u + 13 * L * CIELuv.u_prime D65 ≠ 0)
    (hv : v + 13 * L * CIELuv.v_prime D65 ≠ 0)
    (w : Triple) (hw : XYZ.from_CIELuv (L, u, v) = .ok w) :
    ((XYZ.from_CIELuv (L, u, v)).map CIELab.from_XYZ).bind
      (fun t => CIELuv.from_XYZ (XYZ.from_CIELab t)) = .ok (L, u, v) := by
  have h1 := CIELuv_XYZ_roundtrip L u v hL hu hv
  rw [hw, except_bind_ok] at h1
  rw [hw, except_map_ok, except_bind_ok, XYZ_CIELab_roundtrip]
  exact h1

/-- Claim C1 counterexample: the XYZ → sRGB → XYZ round trip at the interior
point `(0.001, 0.001, 0.001)` (where both gamma branches are linear, so the
computation is exact rational arithmetic) misses the second coordinate by more
than the claimed `1e-9` relative tolerance: the two published rounded 3×3
matrices are not mutual inverses (the actual relative error is about
`9.6e-8`). -/
theorem claim_C1_counterexample :
    |(XYZ.from_sRGB (sRGB.from_XYZ ((0.001 : ℝ), 0.001, 0.001))).2.1 - 0.001| >
      0.000000001 * 0.001 := by
  simp only [sRGB.from_XYZ, XYZ.from_sRGB, sRGB.gamma_compress, sRGB.gamma_expand,
    sRGB.compress, sRGB.expand]
  norm_num
  rw [abs_of_pos (by norm_num)]
  norm_num

/-- Claim C1 (amended): over exact real arithmetic, every reachable round trip
among {XYZ, xyY, CIELab, CIELuv} — the direct edges and the hub-composed
pairs — and the direct pairs (CIELab, LCh), (CIELuv, LCh) (both use the one
shared cylindrical conversion) and (sRGB, HSV) return their interior input
exactly (not merely within 1e-9).  The pairs coupling sRGB with XYZ, xyY,
CIELab, CIELuv are excluded: the two published rounded 3×3 matrices are not
mutual inverses, and the round trip already misses the claimed 1e-9 relative
tolerance (see the counterexample). -/
theorem claim_C1 :
    (∀ X Y Z : ℝ, X + Y + Z ≠ 0 → Y ≠ 0 →
      (xyY.from_XYZ (X, Y, Z)).bind XYZ.from_xyY = .ok (X, Y, Z)) ∧
    (∀ x y Y : ℝ, y ≠ 0 → Y ≠ 0 →
      (XYZ.from_xyY (x, y, Y)).bind xyY.from_XYZ = .ok (x, y, Y)) ∧
    (∀ v : Triple, XYZ.from_CIELab (CIELab.from_XYZ v) = v) ∧
    (∀ v : Triple, CIELab.from_XYZ (XYZ.from_CIELab v) = v) ∧
    (∀ X Y Z : ℝ, X + 15 * Y + 3 * Z ≠ 0 → X ≠ 0 → Y ≠ 0 →
      (CIELuv.from_XYZ (X, Y, Z)).bind XYZ.from_CIELuv = .ok (X, Y, Z)) ∧
    (∀ L u v : ℝ, L ≠ 0 → u + 13 * L * CIELuv.u_prime D65 ≠ 0 →
      v + 13 * L * CIELuv.v_prime D65 ≠ 0 →
      (XYZ.from_CIELuv (L, u, v)).bind CIELuv.from_XYZ = .ok (L, u, v)) ∧
    (∀ v : Triple, UniformColorSpace.from_LCh (UniformColorSpace.LCh v) = v) ∧
    (∀ L C h : ℝ, 0 < C → 0 ≤ h → h < 360 →
      UniformColorSpace.LCh (UniformColorSpace.from_LCh (L, C, h)) = (L, C, h)) ∧
    (∀ R G B : ℝ, 0 ≤ R → 0 ≤ G → 0 ≤ B →
      sRGB.from_HSV (sRGB.HSV (R, G, B)) = (R, G, B)) ∧
    (∀ H S V : ℝ, 0 ≤ H → H < 360 → 0 < S → 0 < V →
      sRGB.HSV (sRGB.from_HSV (H, S, V)) = (H, S, V)) ∧
    (∀ x y Y : ℝ, y ≠ 0 → Y ≠ 0 →
      ((XYZ.from_xyY (x, y, Y)).map CIELab.from_XYZ).bind
        (fun t => xyY.from_XYZ (XYZ.from_CIELab t)) = .ok (x, y, Y)) ∧
    (∀ L a b : ℝ,
      (XYZ.from_CIELab (L, a, b)).1 + (XYZ.from_CIELab (L, a, b)).2.1 +
        (XYZ.from_CIELab (L, a, b)).2.2 ≠ 0 →
      (XYZ.from_CIELab (L, a, b)).2.1 ≠ 0 →
      (xyY.from_XYZ (XYZ.from_CIELab (L, a, b))).bind
        (fun t => (XYZ.from_xyY t).map CIELab.from_XYZ) = .ok (L, a, b)) ∧
    (∀ x y Y : ℝ, y ≠ 0 → Y ≠ 0 →
      x * Y / y + 15 * Y + 3 * ((1 - x - y) * Y / y) ≠ 0 → x * Y / y ≠ 0 →
      ((XYZ.from_xyY (x, y, Y)).bind CIELuv.from_XYZ).bind
        (fun t => (XYZ.from_CIELuv t).bind xyY.from_XYZ) = .ok (x, y, Y)) ∧
    (∀ L u v : ℝ, L ≠ 0 → u + 13 * L * CIELuv.u_prime D65 ≠ 0 →
      v + 13 * L * CIELuv.v_prime D65 ≠ 0 →
      ∀ w : Triple, XYZ.from_CIELuv (L, u, v) = .ok w →
      w.1 + w.2.1 + w.2.2 ≠ 0 → w.2.1 ≠ 0 →
      ((XYZ.from_CIELuv (L, u, v)).bind xyY.from_XYZ).bind
        (fun t => (XYZ.from_xyY t).bind CIELuv.from_XYZ) = .ok (L, u, v)) ∧
    (∀ L a b : ℝ,
      (XYZ.from_CIELab (L, a, b)).1 + 15 * (XYZ.from_CIELab (L, a, b)).2.1 +
        3 * (XYZ.from_CIELab (L, a, b)).2.2 ≠ 0 →
      (XYZ.from_CIELab (L, a, b)).1 ≠ 0 →
      (XYZ.from_CIELab (L, a, b)).2.1 ≠ 0 →
      (CIELuv.from_XYZ (XYZ.from_CIELab (L, a, b))).bind
        (fun t => (XYZ.from_CIELuv t).map CIELab.from_XYZ) = .ok (L, a, b)) ∧
    (∀ L u v : ℝ, L ≠ 0 → u + 13 * L * CIELuv.u_prime D65 ≠ 0 →
      v + 13 * L * CIELuv.v_prime D65 ≠ 0 →
      ∀ w : Triple, XYZ.from_CIELuv (L, u, v) = .ok w →
      ((XYZ.from_CIELuv (L, u, v)).map CIELab.from_XYZ).bind
        (fun t => CIELuv.from_XYZ (XYZ.from_CIELab t)) = .ok (L, u, v)) :=
  ⟨XYZ_xyY_roundtrip, xyY_XYZ_roundtrip, XYZ_CIELab_roundtrip, CIELab_XYZ_roundtrip,
   XYZ_CIELuv_roundtrip, CIELuv_XYZ_roundtrip, UCS_LCh_roundtrip, LCh_UCS_roundtrip,
   sRGB_HSV_roundtrip, HSV_sRGB_roundtrip, xyY_CIELab_roundtrip, CIELab_xyY_roundtrip,
   xyY_CIELuv_roundtrip, CIELuv_xyY_roundtrip, CIELab_CIELuv_roundtrip,
   CIELuv_CIELab_roundtrip⟩

/-- Witness for C1 at interior points: `XYZ (0.2, 0.3, 0.4)`,
`xyY (0.3, 0.4, 5)`, `CIELab (50, 10, 20)`, `CIELuv (50, 10, 20)`,
`LCh (50, 30, 100)`, `sRGB (0.2, 0.5, 0.4)`, `HSV (120, 0.5, 0.4)`. -/
theorem claim_C1_witness :
    ((0.2 : ℝ) + 0.3 + 0.4 ≠ 0 ∧ (0.3 : ℝ) ≠ 0 ∧
      (xyY.from_XYZ ((0.2 : ℝ), 0.3, 0.4)).bind XYZ.from_xyY = .ok (0.2, 0.3, 0.4)) ∧
    ((0.4 : ℝ) ≠ 0 ∧ (5 : ℝ) ≠ 0 ∧
      (XYZ.from_xyY ((0.3 : ℝ), 0.4, 5)).bind xyY.from_XYZ = .ok (0.3, 0.4, 5)) ∧
    (XYZ.from_CIELab (CIELab.from_XYZ ((0.2 : ℝ), 0.3, 0.4)) = (0.2, 0.3, 0.4)) ∧
    (CIELab.from_XYZ (XYZ.from_CIELab ((50 : ℝ), 10, 20)) = (50, 10, 20)) ∧
    ((0.2 : ℝ) + 15 * 0.3 + 3 * 0.4 ≠ 0 ∧ (0.2 : ℝ) ≠ 0 ∧ (0.3 : ℝ) ≠ 0 ∧
      (CIELuv.from_XYZ ((0.2 : ℝ), 0.3, 0.4)).bind XYZ.from_CIELuv =
        .ok (0.2, 0.3, 0.4)) ∧
    ((50 : ℝ) ≠ 0 ∧ (10 : ℝ) + 13 * 50 * CIELuv.u_prime D65 ≠ 0 ∧
      (20 : ℝ) + 13 * 50 * CIELuv.v_prime D65 ≠ 0 ∧
      (XYZ.from_CIELuv ((50 : ℝ), 10, 20)).bind CIELuv.from_XYZ = .ok (50, 10, 20)) ∧
    (UniformColorSpace.from_LCh (UniformColorSpace.LCh ((50 : ℝ), 10, 20)) =
      (50, 10, 20)) ∧
    ((0 : ℝ) < 30 ∧ (0 : ℝ) ≤ 100 ∧ (100 : ℝ) < 360 ∧
      UniformColorSpace.LCh (UniformColorSpace.from_LCh ((50 : ℝ), 30, 100)) =
        (50, 30, 100)) ∧
    ((0 : ℝ) ≤ 0.2 ∧ (0 : ℝ) ≤ 0.5 ∧ (0 : ℝ) ≤ 0.4 ∧
      sRGB.from_HSV (sRGB.HSV ((0.2 : ℝ), 0.5, 0.4)) = (0.2, 0.5, 0.4)) ∧
    ((0 : ℝ) ≤ 120 ∧ (120 : ℝ) < 360 ∧ (0 : ℝ) < 0.5 ∧ (0 : ℝ) < 0.4 ∧
      sRGB.HSV (sRGB.from_HSV ((120 : ℝ), 0.5, 0.4)) = (120, 0.5, 0.4)) ∧
    (((XYZ.from_xyY ((0.3 : ℝ), 0.4, 5)).map CIELab.from_XYZ).bind
        (fun t => xyY.from_XYZ (XYZ.from_CIELab t)) = .ok (0.3, 0.4, 5)) ∧
    ((XYZ.from_CIELab ((50 : ℝ), 10, 20)).1 + (XYZ.from_CIELab ((50 : ℝ), 10, 20)).2.1 +
        (XYZ.from_CIELab ((50 : ℝ), 10, 20)).2.2 ≠ 0 ∧
      (XYZ.from_CIELab ((50 : ℝ), 10, 20)).2.1 ≠ 0 ∧
      (xyY.from_XYZ (XYZ.from_CIELab ((50 : ℝ), 10, 20))).bind
        (fun t => (XYZ.from_xyY t).map CIELab.from_XYZ) = .ok (50, 10, 20)) ∧
    ((0.3 : ℝ) * 5 / 0.4 + 15 * 5 + 3 * ((1 - 0.3 - 0.4) * 5 / 0.4) ≠ 0 ∧
      (0.3 : ℝ) * 5 / 0.4 ≠ 0 ∧
      ((XYZ.from_xyY ((0.3 : ℝ), 0.4, 5)).bind CIELuv.from_XYZ).bind
        (fun t => (XYZ.from_CIELuv t).bind xyY.from_XYZ) = .ok (0.3, 0.4, 5)) ∧
    (XYZ.from_CIELuv ((50 : ℝ), 10, 20) =
        .ok (2153571838407 / 12163943899904, 35937 / 195112,
          1546668213651 / 12163943899904) ∧
      ((XYZ.from_CIELuv ((50 : ℝ), 10, 20)).bind xyY.from_XYZ).bind
        (fun t => (XYZ.from_xyY t).bind CIELuv.from_XYZ) = .ok (50, 10, 20)) ∧
    ((CIELuv.from_XYZ (XYZ.from_CIELab ((50 : ℝ), 10, 20))).bind
        (fun t => (XYZ.from_CIELuv t).map CIELab.from_XYZ) = .ok (50, 10, 20)) ∧
    (((XYZ.from_CIELuv ((50 : ℝ), 10, 20)).map CIELab.from_XYZ).bind
        (fun t => CIELuv.from_XYZ (XYZ.from_CIELab t)) = .ok (50, 10, 20)) := by
  have hw : XYZ.from_CIELuv ((50 : ℝ), 10, 20) =
      .ok (2153571838407 / 12163943899904, 35937 / 195112,
        1546668213651 / 12163943899904) := by
    simp only [XYZ.from_CIELuv, CIELuv.u_prime, CIELuv.v_prime, D65]
    norm_num
  have hu0 : (10 : ℝ) + 13 * 50 * CIELuv.u_prime D65 ≠ 0 := by
    simp only [CIELuv.u_prime, D65]
    norm_num
  have hv0 : (20 : ℝ) + 13 * 50 * CIELuv.v_prime D65 ≠ 0 := by
    simp only [CIELuv.v_prime, D65]
    norm_num
  have hlab1 : (XYZ.from_CIELab ((50 : ℝ), 10, 20)).1 +
      (XYZ.from_CIELab ((50 : ℝ), 10, 20)).2.1 +
      (XYZ.from_CIELab ((50 : ℝ), 10, 20)).2.2 ≠ 0 := by
    simp only [XYZ.from_CIELab, CIELab.f_inv, D65]
    norm_num
  have hlab2 : (XYZ.from_CIELab ((50 : ℝ), 10, 20)).2.1 ≠ 0 := by
    simp only [XYZ.from_CIELab, CIELab.f_inv, D65]
    norm_num
  have hlabX : (XYZ.from_CIELab ((50 : ℝ), 10, 20)).1 ≠ 0 := by
    simp only [XYZ.from_CIELab, CIELab.f_inv, D65]
    norm_num
  have hlabden : (XYZ.from_CIELab ((50 : ℝ), 10, 20)).1 +
      15 * (XYZ.from_CIELab ((50 : ℝ), 10, 20)).2.1 +
      3 * (XYZ.from_CIELab ((50 : ℝ), 10, 20)).2.2 ≠ 0 := by
    simp only [XYZ.from_CIELab, CIELab.f_inv, D65]
    norm_num
  refine ⟨⟨by norm_num, by norm_num,
      claim_C1.1 0.2 0.3 0.4 (by norm_num) (by norm_num)⟩,
    ⟨by norm_num, by norm_num,
      claim_C1.2.1 0.3 0.4 5 (by norm_num) (by norm_num)⟩,
    claim_C1.2.2.1 (0.2, 0.3, 0.4),
    claim_C1.2.2.2.1 (50, 10, 20),
    ⟨by norm_num, by norm_num, by norm_num,
      claim_C1.2.2.2.2.1 0.2 0.3 0.4 (by norm_num) (by norm_num) (by norm_num)⟩,
    ⟨by norm_num, hu0, hv0,
      claim_C1.2.2.2.2.2.1 50 10 20 (by norm_num) hu0 hv0⟩,
    claim_C1.2.2.2.2.2.2.1 (50, 10, 20),
    ⟨by norm_num, by norm_num, by norm_num,
      claim_C1.2.2.2.2.2.2.2.1 50 30 100 (by norm_num) (by norm_num) (by norm_num)⟩,
    ⟨by norm_num, by norm_num, by norm_num,
      claim_C1.2.2.2.2.2.2.2.2.1 0.2 0.5 0.4 (by norm_num) (by norm_num) (by norm_num)⟩,
    ⟨by norm_num, by norm_num, by norm_num, by norm_num,
      claim_C1.2.2.2.2.2.2.2.2.2.1 120 0.5 0.4 (by norm_num) (by norm_num)
        (by norm_num) (by norm_num)⟩,
    claim_C1.2.2.2.2.2.2.2.2.2.2.1 0.3 0.4 5 (by norm_num) (by norm_num),
    ⟨hlab1, hlab2,
      claim_C1.2.2.2.2.2.2.2.2.2.2.2.1 50 10 20 hlab1 hlab2⟩,
    ⟨by norm_num, by norm_num,
      claim_C1.2.2.2.2.2.2.2.2.2.2.2.2.1 0.3 0.4 5 (by norm_num) (by norm_num)
        (by norm_num) (by norm_num)⟩,
    ⟨hw, claim_C1.2.2.2.2.2.2.2.2.2.2.2.2.2.1 50 10 20 (by norm_num) hu0 hv0 _ hw
      (by norm_num) (by norm_num)⟩,
    claim_C1.2.2.2.2.2.2.2.2.2.2.2.2.2.2.1 50 10 20 hlabden hlabX hlab2,
    claim_C1.2.2.2.2.2.2.2.2.2.2.2.2.2.2.2 50 10 20 (by norm_num) hu0 hv0 _ hw⟩

/-- Witness for C6 at `c = 0.02` (linear zone), `c = 0.5` (power zone), and the
breakpoint `c = 0.04045` (sliver). -/
theorem claim_C6_witness :
    ((0.02 : ℝ) ≤ 0.040449936 ∧ sRGB.compress (sRGB.expand 0.02) = 0.02) ∧
    ((0.04045 : ℝ) < 0.5 ∧ sRGB.compress (sRGB.expand 0.5) = 0.5) ∧
    ((0.040449936 : ℝ) < 0.04045 ∧ (0.04045 : ℝ) ≤ 0.04045 ∧
      |sRGB.compress (sRGB.expand 0.04045) - 0.04045| ≤ 0.0000001) :=
  ⟨⟨by norm_num, claim_C6.1 0.02 (by norm_num)⟩,
   ⟨by norm_num, claim_C6.2.1 0.5 (by norm_num)⟩,
   ⟨by norm_num, by norm_num, claim_C6.2.2 0.04045 (by norm_num) (by norm_num)⟩⟩

end Colors
